import Mathlib

/-!
Verification development for the query entity extractor
(`extract_stock_info` in `Financial-MCP-Agent/test_extraction.py`).

The extractor is a fixed cascade of 20 Python regular expressions with
first-match-wins semantics for the combined (name+code) patterns 1-8,
guarded assignment for the independent name-only patterns 9-17 and
code-only patterns 18-20, followed by a stop-word cleanup pass on the
captured company name.

The embedding below models Python `re.search` backtracking semantics
directly: matching is continuation-passing with explicit candidate
ordering (greedy quantifiers try longer first, lazy quantifiers try
shorter first, alternatives left to right, search positions left to
right).  `\d` is modelled as the ASCII and full-width digits while the
literal class `0-9` is the ASCII digits only, `\s` as the whitespace
characters relevant to these inputs (ASCII whitespace plus NBSP and the
ideographic space), and `\w` (used by the word boundary `\b` of pattern
18) as ASCII letters, digits, underscore, and CJK unified ideographs;
every character occurring in the repository's queries is classified
identically to Python.
-/

namespace StockExtract

abbrev Str := List Char

/-- first-success choice on `Option` (backtracking alternative order). -/
def firstSome {R : Type} : Option R → Option R → Option R
| some r, _ => some r
| none, b => b

/-! ## Character classes -/

/-- Python `\s` (restricted to whitespace characters that can occur here). -/
def isSpacePy (c : Char) : Bool :=
  c = ' ' || c = '\t' || c = '\n' || c = '\r' || c = '\u000B' || c = '\u000C' ||
  c = '\u00A0' || c = '\u3000'

/-- ASCII digits: the literal class `0-9`. -/
def isAsciiDigit (c : Char) : Bool := ('0' ≤ c) && (c ≤ '9')

/-- Python `\d` (Unicode decimal digits, restricted to the ASCII and
full-width digits, the only ones relevant here). -/
def isDigitPy (c : Char) : Bool :=
  isAsciiDigit c || (('\uFF10' ≤ c) && (c ≤ '\uFF19'))

/-- Half- or full-width opening parenthesis: the class `[（(]`. -/
def isOpenPar (c : Char) : Bool := c = '（' || c = '('

/-- Half- or full-width closing parenthesis: the class `[)）]`. -/
def isClosePar (c : Char) : Bool := c = '）' || c = ')'

/-- CJK unified ideographs (all Chinese characters used by the queries). -/
def isCJK (c : Char) : Bool := (0x4E00 ≤ c.val) && (c.val ≤ 0x9FFF)

/-- Python `\w` on the relevant characters: letters, digits, underscore, CJK. -/
def isWordChar (c : Char) : Bool :=
  c.isAlpha || isDigitPy c || c = '_' || isCJK c

/-- The class `[^（(]` (company-name characters in the combined patterns). -/
def isNameChar (c : Char) : Bool := !(isOpenPar c)

/-- The class `[^）)]` (patterns 4 and 5). -/
def isNotClose (c : Char) : Bool := !(isClosePar c)

/-- The class `[^0-9（）()\s]` of the independent name patterns. -/
def isIndepChar (c : Char) : Bool :=
  !(isAsciiDigit c || c = '（' || c = '）' || c = '(' || c = ')' || isSpacePy c)

/-! ## Backtracking matching combinators (Python `re` semantics) -/

/-- Consume a literal: `chopLit L s = some rest` iff `s = L ++ rest`. -/
def chopLit : Str → Str → Option Str
| [], s => some s
| _ :: _, [] => none
| p :: ps, c :: cs => if p = c then chopLit ps cs else none

/-- Match a literal, then continue. -/
def matchLit {R : Type} (L : Str) (s : Str) (k : Str → Option R) : Option R :=
  match chopLit L s with
  | some rest => k rest
  | none => none

/-- Match a single character of a class, then continue. -/
def matchCls {R : Type} (p : Char → Bool) (s : Str) (k : Str → Option R) : Option R :=
  match s with
  | [] => none
  | c :: cs => if p c then k cs else none

/-- Greedy star over a character class (`\s*`, `[...]*`): consume as many
class characters as possible first, backtracking to fewer on failure. -/
def tryStar {R : Type} (p : Char → Bool) (s : Str) (k : Str → Option R) : Option R :=
  match s with
  | [] => k []
  | c :: cs =>
    if p c then firstSome (tryStar p cs k) (k (c :: cs)) else k (c :: cs)

/-- Lazy plus over a character class with capture (`([...]+?)`): try the
shortest nonempty capture first, extending on failure.  The continuation
receives the capture (prefixed by `acc`) and the remaining input. -/
def tryLazy {R : Type} (p : Char → Bool) (acc : Str) (s : Str)
    (k : Str → Str → Option R) : Option R :=
  match s with
  | [] => none
  | c :: cs =>
    if p c then firstSome (k (acc ++ [c]) cs) (tryLazy p (acc ++ [c]) cs k)
    else none

/-- Greedy plus over a character class with capture (`([...]+)`): try the
longest nonempty capture first, backtracking to shorter on failure. -/
def tryGreedy {R : Type} (p : Char → Bool) (acc : Str) (s : Str)
    (k : Str → Str → Option R) : Option R :=
  match s with
  | [] => if acc.isEmpty then none else k acc []
  | c :: cs =>
    if p c then
      firstSome (tryGreedy p (acc ++ [c]) cs k)
        (if acc.isEmpty then none else k acc (c :: cs))
    else if acc.isEmpty then none else k acc (c :: cs)

/-- The capture `(\d{5,6})` (greedy bounded repetition): try six digits
first, then five. -/
def tryDigits56 {R : Type} (s : Str) (k : Str → Str → Option R) : Option R :=
  if 6 ≤ (s.takeWhile isDigitPy).length then
    firstSome (k (s.take 6) (s.drop 6)) (k (s.take 5) (s.drop 5))
  else if (s.takeWhile isDigitPy).length = 5 then
    k (s.take 5) (s.drop 5)
  else none

/-- `re.search`: try match positions left to right. -/
def reSearch {R : Type} (m : Str → Option R) : Str → Option R
| [] => m []
| c :: cs => firstSome (m (c :: cs)) (reSearch m cs)

/-- The optional group `(?:\s*L1|\s*L2)?` of pattern 5. -/
def tryOptWsLit2 {R : Type} (L1 L2 : Str) (s : Str) (k : Str → Option R) : Option R :=
  firstSome (tryStar isSpacePy s (fun s2 => matchLit L1 s2 k))
    (firstSome (tryStar isSpacePy s (fun s2 => matchLit L2 s2 k)) (k s))

/-- An optional alternation of literals `(?:L1|L2|...)?`. -/
def tryOptLits {R : Type} (Ls : List Str) (s : Str) (k : Str → Option R) : Option R :=
  match Ls with
  | [] => k s
  | L :: rest => firstSome (matchLit L s k) (tryOptLits rest s k)

/-- A required alternation of literals `(?:L1|L2|...)`. -/
def tryAltLits {R : Type} (Ls : List Str) (s : Str) (k : Str → Option R) : Option R :=
  match Ls with
  | [] => none
  | L :: rest => firstSome (matchLit L s k) (tryAltLits rest s k)

/-! ## Literals appearing in the patterns -/

def kwP1 : Str := (r"请帮我分析一下").data
def kwFenxiYixia : Str := (r"分析一下").data
def kwFenxi : Str := (r"分析").data
def kwBangwoKankan : Str := (r"帮我看看").data
def kwWoxiangLiaojie : Str := (r"我想了解一下").data
def kwLiaojieYixia : Str := (r"了解一下").data
def kwGeiwoFenxi : Str := (r"给我分析一下").data
def litDe : Str := (r"的").data
def litGupiao : Str := (r"股票").data
def litZhezhi : Str := (r"这只").data
def litZhege : Str := (r"这个").data
def litZai : Str := (r"在").data
def litZhong : Str := (r"中").data
def litMianlin : Str := (r"面临").data
def litZhideMai : Str := (r"值得买").data
def litZuijinBiaoxian : Str := (r"最近表现").data

/-- The 20 alternatives of pattern 14's topic alternation, in source order. -/
def topicWords : List Str :=
  [ (r"财务表现").data, (r"盈利能力").data, (r"现金流状况").data,
    (r"资产负债情况").data, (r"技术面").data, (r"股价走势").data,
    (r"技术指标").data, (r"技术面表现").data, (r"估值水平").data,
    (r"市盈率").data, (r"市净率").data, (r"估值").data,
    (r"投资风险").data, (r"风险因素").data, (r"风险评估").data,
    (r"投资价值").data, (r"股票").data, (r"基本面情况").data,
    (r"基本面").data, (r"财务状况").data ]

/-! ## The patterns

Each `patNAt` matches pattern N at the current position; `reSearch patNAt`
is `re.search(patternN, ...)`.  Captures are returned in group order. -/

/-- Tail `\s*[（(](\d{5,6})[)）]` shared by the name-first combined
patterns, after the name capture. -/
def tailA3 (name : Str) (s : Str) : Option (Str × Str) :=
  tryStar isSpacePy s fun s2 =>
  matchCls isOpenPar s2 fun s3 =>
  tryDigits56 s3 fun code s4 =>
  matchCls isClosePar s4 fun _ => some (name, code)

/-- `([^（(]+?)\s*[（(](\d{5,6})[)）]` starting at the name capture. -/
def tailA1 (s : Str) : Option (Str × Str) :=
  tryLazy isNameChar [] s fun name s2 => tailA3 name s2

/-- Tail `\s*([^（(]+?)\s*[（(](\d{5,6})[)）]` shared by patterns
1, 2, 3, 6 and 7 after their keyword. -/
def tailA (s : Str) : Option (Str × Str) :=
  tryStar isSpacePy s tailA1

/-- Pattern 1: `请帮我分析一下\s*([^（(]+?)\s*[（(](\d{5,6})[)）]`. -/
def pat1At (s : Str) : Option (Str × Str) := matchLit kwP1 s tailA

/-- Pattern 2: `分析一下\s*([^（(]+?)\s*[（(](\d{5,6})[)）]`. -/
def pat2At (s : Str) : Option (Str × Str) := matchLit kwFenxiYixia s tailA

/-- Pattern 3: `分析\s*([^（(]+?)\s*[（(](\d{5,6})[)）]`. -/
def pat3At (s : Str) : Option (Str × Str) := matchLit kwFenxi s tailA

/-- Pattern 4: `分析\s*[（(](\d{5,6})[)）]\s*([^）)]+)`; captures (code, name). -/
def pat4At (s : Str) : Option (Str × Str) :=
  matchLit kwFenxi s fun s1 =>
  tryStar isSpacePy s1 fun s2 =>
  matchCls isOpenPar s2 fun s3 =>
  tryDigits56 s3 fun code s4 =>
  matchCls isClosePar s4 fun s5 =>
  tryStar isSpacePy s5 fun s6 =>
  tryGreedy isNotClose [] s6 fun name _ => some (code, name)

/-- Pattern 5: `帮我看看\s*[（(](\d{5,6})[)）]\s*([^）)]+?)(?:\s*这只|\s*这个)?\s*股票`;
captures (code, name). -/
def pat5At (s : Str) : Option (Str × Str) :=
  matchLit kwBangwoKankan s fun s1 =>
  tryStar isSpacePy s1 fun s2 =>
  matchCls isOpenPar s2 fun s3 =>
  tryDigits56 s3 fun code s4 =>
  matchCls isClosePar s4 fun s5 =>
  tryStar isSpacePy s5 fun s6 =>
  tryLazy isNotClose [] s6 fun name s7 =>
  tryOptWsLit2 litZhezhi litZhege s7 fun s8 =>
  tryStar isSpacePy s8 fun s9 =>
  matchLit litGupiao s9 fun _ => some (code, name)

/-- Pattern 6: `我想了解一下\s*([^（(]+?)\s*[（(](\d{5,6})[)）]`. -/
def pat6At (s : Str) : Option (Str × Str) := matchLit kwWoxiangLiaojie s tailA

/-- Pattern 7: `帮我看看\s*([^（(]+?)\s*[（(](\d{5,6})[)）]`. -/
def pat7At (s : Str) : Option (Str × Str) := matchLit kwBangwoKankan s tailA

/-- Pattern 8: `^([^（(]+?)\s*[（(](\d{5,6})[)）]` — anchored, so it is
tried at position 0 only (no `reSearch`). -/
def pat8 (q : Str) : Option (Str × Str) := tailA1 q

/-- The tail `(?:\s*的|\s|$)` of the independent patterns 9, 12 and 13.
`$` matches at the end of the input or before a sole trailing newline. -/
def endAlt {R : Type} (s : Str) (k : Str → Option R) : Option R :=
  firstSome (tryStar isSpacePy s (fun s2 => matchLit litDe s2 k))
    (firstSome
      (match s with
       | c :: cs => if isSpacePy c then k cs else none
       | [] => none)
      (if s = [] ∨ s = ['\n'] then k s else none))

/-- Pattern 9: `分析一下\s*([^0-9（）()\s]+?)(?:\s*的|\s|$)`. -/
def pat9At (s : Str) : Option Str :=
  matchLit kwFenxiYixia s fun s1 =>
  tryStar isSpacePy s1 fun s2 =>
  tryLazy isIndepChar [] s2 fun name s3 =>
  endAlt s3 fun _ => some name

/-- Tail of pattern 10 after its keyword. -/
def pat10Tail (s : Str) : Option Str :=
  tryStar isSpacePy s fun s2 =>
  tryGreedy isIndepChar [] s2 fun name _ => some name

/-- Pattern 10: `分析\s*([^0-9（）()\s]+)`. -/
def pat10At (s : Str) : Option Str := matchLit kwFenxi s pat10Tail

/-- Pattern 11: `([^0-9（）()\s]+)\s*(?:这只|这个|的)?\s*股票`. -/
def pat11At (s : Str) : Option Str :=
  tryGreedy isIndepChar [] s fun name s2 =>
  tryStar isSpacePy s2 fun s3 =>
  tryOptLits [litZhezhi, litZhege, litDe] s3 fun s4 =>
  tryStar isSpacePy s4 fun s5 =>
  matchLit litGupiao s5 fun _ => some name

/-- Pattern 12: `了解一下\s*([^0-9（）()\s]+?)(?:\s*的|\s|$)`. -/
def pat12At (s : Str) : Option Str :=
  matchLit kwLiaojieYixia s fun s1 =>
  tryStar isSpacePy s1 fun s2 =>
  tryLazy isIndepChar [] s2 fun name s3 =>
  endAlt s3 fun _ => some name

/-- Pattern 13: `给我分析一下\s*([^0-9（）()\s]+?)(?:\s*的|\s|$)`. -/
def pat13At (s : Str) : Option Str :=
  matchLit kwGeiwoFenxi s fun s1 =>
  tryStar isSpacePy s1 fun s2 =>
  tryLazy isIndepChar [] s2 fun name s3 =>
  endAlt s3 fun _ => some name

/-- Pattern 14: `([^0-9（）()\s]+?)\s*的\s*(?:财务表现|...|财务状况)`. -/
def pat14At (s : Str) : Option Str :=
  tryLazy isIndepChar [] s fun name s2 =>
  tryStar isSpacePy s2 fun s3 =>
  matchLit litDe s3 fun s4 =>
  tryStar isSpacePy s4 fun s5 =>
  tryAltLits topicWords s5 fun _ => some name

/-- Pattern 15: `([^0-9（）()\s]+?)\s*在\s*[^0-9（）()\s]*\s*中`. -/
def pat15At (s : Str) : Option Str :=
  tryLazy isIndepChar [] s fun name s2 =>
  tryStar isSpacePy s2 fun s3 =>
  matchLit litZai s3 fun s4 =>
  tryStar isSpacePy s4 fun s5 =>
  tryStar isIndepChar s5 fun s6 =>
  tryStar isSpacePy s6 fun s7 =>
  matchLit litZhong s7 fun _ => some name

/-- Pattern 16: `([^0-9（）()\s]+?)\s*在\s*[^0-9（）()\s]*\s*中\s*的`. -/
def pat16At (s : Str) : Option Str :=
  tryLazy isIndepChar [] s fun name s2 =>
  tryStar isSpacePy s2 fun s3 =>
  matchLit litZai s3 fun s4 =>
  tryStar isSpacePy s4 fun s5 =>
  tryStar isIndepChar s5 fun s6 =>
  tryStar isSpacePy s6 fun s7 =>
  matchLit litZhong s7 fun s8 =>
  tryStar isSpacePy s8 fun s9 =>
  matchLit litDe s9 fun _ => some name

/-- Pattern 17: `([^0-9（）()\s]+?)\s*面临`. -/
def pat17At (s : Str) : Option Str :=
  tryLazy isIndepChar [] s fun name s2 =>
  tryStar isSpacePy s2 fun s3 =>
  matchLit litMianlin s3 fun _ => some name

/-- The word boundary `\b` after a word character: the next position must
hold a non-word character or be the end of the input. -/
def boundaryAfter : Str → Bool
| [] => true
| c :: _ => !(isWordChar c)

/-- `\d{5,6}\b` at the current position for pattern 18: six digits with a
trailing word boundary, else five.  The position itself is known to start
with a digit at a word boundary. -/
def attempt18 (s : Str) : Option Str :=
  if 6 ≤ (s.takeWhile isDigitPy).length then
    if boundaryAfter (s.drop 6) then some (s.take 6)
    else if boundaryAfter (s.drop 5) then some (s.take 5)
    else none
  else if (s.takeWhile isDigitPy).length = 5 then
    if boundaryAfter (s.drop 5) then some (s.take 5)
    else none
  else none

/-- Pattern 18: `re.search` of `\b(\d{5,6})\b`.  `pw` records whether the
character before the current position is a word character (`false` at the
start of the input). -/
def findCode18 (pw : Bool) : Str → Option Str
| [] => none
| c :: cs =>
  if !pw && isDigitPy c then
    match attempt18 (c :: cs) with
    | some code => some code
    | none => findCode18 (isWordChar c) cs
  else findCode18 (isWordChar c) cs

/-- Pattern 19: `(\d{5,6})\s*(?:这个|这只)?\s*股票\s*值得买`. -/
def pat19At (s : Str) : Option Str :=
  tryDigits56 s fun code s2 =>
  tryStar isSpacePy s2 fun s3 =>
  tryOptLits [litZhege, litZhezhi] s3 fun s4 =>
  tryStar isSpacePy s4 fun s5 =>
  matchLit litGupiao s5 fun s6 =>
  tryStar isSpacePy s6 fun s7 =>
  matchLit litZhideMai s7 fun _ => some code

/-- Pattern 20: `(\d{5,6})\s*这个\s*股票\s*最近表现`. -/
def pat20At (s : Str) : Option Str :=
  tryDigits56 s fun code s2 =>
  tryStar isSpacePy s2 fun s3 =>
  matchLit litZhege s3 fun s4 =>
  tryStar isSpacePy s4 fun s5 =>
  matchLit litGupiao s5 fun s6 =>
  tryStar isSpacePy s6 fun s7 =>
  matchLit litZuijinBiaoxian s7 fun _ => some code

/-! ## Name cleanup -/

/-- Python `str.strip()`: remove leading and trailing whitespace. -/
def stripStr (s : Str) : Str :=
  ((s.dropWhile isSpacePy).reverse.dropWhile isSpacePy).reverse

/-- Python `s.replace(w, '')`: remove all non-overlapping occurrences of
`w`, scanning left to right.  When `w` matches at the current position
the whole occurrence (`w.length` characters, i.e. `c` plus `w.length - 1`
characters of `cs`) is skipped.  The `fuel` argument only bounds the
recursion; every step consumes at least one character, so the fuel
supplied by `replaceAll` is never exhausted. -/
def replaceAllGo (w : Str) : Nat → Str → Str
| _, [] => []
| 0, s => s
| fuel + 1, c :: cs =>
  if (chopLit w (c :: cs)).isSome && !(w.isEmpty) then
    replaceAllGo w fuel (cs.drop (w.length - 1))
  else c :: replaceAllGo w fuel cs

/-- Python `s.replace(w, '')`. -/
def replaceAll (w : Str) (s : Str) : Str := replaceAllGo w s.length s

/-- The stop-word list of the cleanup pass, in source order. -/
def stop_words : List Str :=
  [ (r"的").data, (r"这个").data, (r"这只").data, (r"一下").data,
    (r"看看").data, (r"了解").data, (r"分析").data, (r"帮我").data,
    (r"我想").data, (r"给我").data, (r"财务状况").data,
    (r"投资价值").data, (r"基本面情况").data, (r"这只股票").data,
    (r"这个股票").data ]

/-- One cleanup step: `name = name.replace(word, '').strip()`. -/
def cleanStep (acc : Str) (w : Str) : Str := stripStr (replaceAll w acc)

/-- The full sequential stop-word removal. -/
def cleanName (n : Str) : Str := stop_words.foldl cleanStep n

/-- Cleanup with the final length guard: names shorter than 2 characters
after cleanup are discarded. -/
def cleanupName (n : Str) : Option Str :=
  if (cleanName n).length < 2 then none else some (cleanName n)

/-- Python truthiness of an optional string (`not company_name`). -/
def falsyStr : Option Str → Bool
| none => true
| some s => s.isEmpty

/-- `containsSub w s`: `w` occurs as a contiguous substring of `s`. -/
def containsSub (w : Str) : Str → Bool
| [] => (chopLit w []).isSome
| c :: cs => (chopLit w (c :: cs)).isSome || containsSub w cs

/-- A well-formed stock code: five or six Python-digit characters. -/
def IsCode (l : Str) : Prop :=
  (∀ c ∈ l, isDigitPy c = true) ∧ (l.length = 5 ∨ l.length = 6)

/-! ## The extractor -/

/-- The combined phase (patterns 1-8, first match wins), with the
`.strip()` applied to the name capture, as in the source's early returns. -/
def matchFirst8 (q : Str) : Option (String × String) :=
  match reSearch pat1At q with
  | some (name, code) => some (String.mk (stripStr name), String.mk code)
  | none =>
  match reSearch pat2At q with
  | some (name, code) => some (String.mk (stripStr name), String.mk code)
  | none =>
  match reSearch pat3At q with
  | some (name, code) => some (String.mk (stripStr name), String.mk code)
  | none =>
  match reSearch pat4At q with
  | some (code, name) => some (String.mk (stripStr name), String.mk code)
  | none =>
  match reSearch pat5At q with
  | some (code, name) => some (String.mk (stripStr name), String.mk code)
  | none =>
  match reSearch pat6At q with
  | some (name, code) => some (String.mk (stripStr name), String.mk code)
  | none =>
  match reSearch pat7At q with
  | some (name, code) => some (String.mk (stripStr name), String.mk code)
  | none =>
  match pat8 q with
  | some (name, code) => some (String.mk (stripStr name), String.mk code)
  | none => none

/-- Guarded assignment of an independent name rule, mirroring
`if matchN and not company_name: company_name = matchN.group(1).strip()`. -/
def guardName (prev : Option Str) (found : Option Str) : Option Str :=
  match found, falsyStr prev with
  | some n, true => some (stripStr n)
  | _, _ => prev

/-- Guarded assignment of an independent code rule, mirroring
`if matchN and not stock_code: stock_code = matchN.group(1)`. -/
def guardCode (prev : Option Str) (found : Option Str) : Option Str :=
  match found, falsyStr prev with
  | some c, true => some c
  | _, _ => prev

/-- The fall-through independent name phase (patterns 9-17): pattern 9
assigns unconditionally, patterns 10-17 only when no name was set. -/
def indepName (q : Str) : Option Str :=
  let c9 : Option Str := (reSearch pat9At q).map stripStr
  let c10 := guardName c9 (reSearch pat10At q)
  let c11 := guardName c10 (reSearch pat11At q)
  let c12 := guardName c11 (reSearch pat12At q)
  let c13 := guardName c12 (reSearch pat13At q)
  let c14 := guardName c13 (reSearch pat14At q)
  let c15 := guardName c14 (reSearch pat15At q)
  let c16 := guardName c15 (reSearch pat16At q)
  guardName c16 (reSearch pat17At q)

/-- The fall-through code phase (patterns 18-20): pattern 18 assigns
unconditionally, patterns 19 and 20 only when no code was set. -/
def indepCode (q : Str) : Option Str :=
  let c18 : Option Str := findCode18 false q
  let c19 := guardCode c18 (reSearch pat19At q)
  guardCode c19 (reSearch pat20At q)

/-- `extract_stock_info(query)`: the full cascade of
`Financial-MCP-Agent/test_extraction.py`. -/
def extract_stock_info (query : String) : Option String × Option String :=
  match matchFirst8 query.data with
  | some (name, code) => (some name, some code)
  | none =>
    (Option.map String.mk
      (match indepName query.data with
       | some nm => if nm.isEmpty then some nm else cleanupName nm
       | none => none),
     Option.map String.mk (indepCode query.data))

/-! # Theorems -/

/-! ## Concrete evaluations for the explicitly listed cases -/

/-- C8: `extract_stock_info` maps each of the six concrete queries exactly
as listed in the specification: 分析嘉友国际(603871) to (嘉友国际, 603871);
帮我看看(000001)平安银行这只股票 to (平安银行, 000001);
分析一下宁德时代的财务状况 to (宁德时代, none);
603871这个股票最近表现怎么样，值得投资吗 to (none, 603871);
嘉友国际 to (none, none); and the empty string to (none, none). -/
theorem c8_concrete_cases :
    extract_stock_info (r"分析嘉友国际(603871)") = (some (r"嘉友国际"), some (r"603871")) ∧
    extract_stock_info (r"帮我看看(000001)平安银行这只股票") = (some (r"平安银行"), some (r"000001")) ∧
    extract_stock_info (r"分析一下宁德时代的财务状况") = (some (r"宁德时代"), none) ∧
    extract_stock_info (r"603871这个股票最近表现怎么样，值得投资吗") = (none, some (r"603871")) ∧
    extract_stock_info (r"嘉友国际") = (none, none) ∧
    extract_stock_info (r"") = (none, none) := by
  decide

/-- C10: a 5-6 digit run written immediately adjacent to a CJK character is
not extracted by the bare-code rule (CJK characters are word characters, so
the required word boundary is absent): 嘉友国际603871 yields (none, none),
while 嘉友国际 603871 (space before the digits) yields (none, 603871). -/
theorem c10_cjk_word_boundary :
    extract_stock_info (r"嘉友国际603871") = (none, none) ∧
    extract_stock_info (r"嘉友国际 603871") = (none, some (r"603871")) := by
  decide

/-! ## Counterexamples -/

/-- C1 counterexample: the query 分析一下嘉友(60387) matches the claimed
shape 分析<NAME>(<CODE>) with NAME = 一下嘉友 (no whitespace parts) and
CODE = 60387, yet the extractor does not return (NAME trimmed, CODE):
pattern 2 (the 分析一下 combined pattern) fires first and captures only
嘉友. -/
theorem c1_counterexample :
    (r"分析一下嘉友(60387)").data
      = kwFenxi ++ ([] ++ ((r"一下嘉友").data ++ ([] ++ '(' :: ((r"60387").data ++ [')'])))) ∧
    (r"一下嘉友").data ≠ [] ∧
    (∀ c ∈ (r"一下嘉友").data, isOpenPar c = false) ∧
    (∀ c ∈ (r"60387").data, isAsciiDigit c = true) ∧
    (r"60387").data.length = 5 ∧
    isOpenPar '(' = true ∧ isClosePar ')' = true ∧
    stripStr (r"一下嘉友").data = (r"一下嘉友").data ∧
    extract_stock_info (r"分析一下嘉友(60387)") = (some (r"嘉友"), some (r"60387")) ∧
    extract_stock_info (r"分析一下嘉友(60387)") ≠ (some (r"一下嘉友"), some (r"60387")) := by
  decide

/-- C2 counterexample: on 分析一下的(12345) the extractor returns the
company name 的 — a single-character string that is itself a stop-word —
because combined patterns return their captures immediately, without the
stop-word cleanup or the length-below-2 discard. -/
theorem c2_counterexample :
    extract_stock_info (r"分析一下的(12345)") = (some (r"的"), some (r"12345")) ∧
    ((r"的") : String).length < 2 ∧
    litDe ∈ stop_words ∧
    containsSub litDe (r"的").data = true := by
  decide

/-- C3 counterexample: on 分析 (12345) the extractor returns the empty
string (not none) as the company name: pattern 3 captures the lone space
as the name and `.strip()` empties it, contradicting the claim that a
returned field is never the empty string. -/
theorem c3_counterexample :
    extract_stock_info (r"分析 (12345)") = (some (r""), some (r"12345")) := by
  decide

/-- C9 counterexample: the stop-word cleanup transformation is not
idempotent.  On 这这个个, removing 这个 once leaves a new occurrence 这个
(length 2, kept), and applying the transformation again deletes it and the
length guard discards the result. -/
theorem c9_counterexample :
    Option.bind (cleanupName (r"这这个个").data) cleanupName
      ≠ cleanupName (r"这这个个").data ∧
    cleanupName (r"这这个个").data = some ((r"这个").data) ∧
    cleanupName (r"这个").data = none := by
  decide

/-! ## Soundness of the combinators: a successful match decomposes the input -/

theorem firstSome_some {R : Type} {a b : Option R} {r : R}
    (h : firstSome a b = some r) : a = some r ∨ b = some r := by
  cases a with
  | some x => simp [firstSome] at h; simp [h]
  | none => simp [firstSome] at h; simp [h]

theorem chopLit_self {r : Str} : ∀ {w : Str}, chopLit w (w ++ r) = some r := by
  intro w
  induction w with
  | nil => rfl
  | cons a ps ih => simp [chopLit, ih]

theorem chopLit_sound : ∀ {w s r : Str}, chopLit w s = some r → s = w ++ r := by
  intro w
  induction w with
  | nil =>
    intro s r h
    simp only [chopLit, Option.some.injEq] at h
    simp [h]
  | cons a ps ih =>
    intro s r h
    cases s with
    | nil => simp [chopLit] at h
    | cons c cs =>
      simp only [chopLit] at h
      by_cases hac : a = c
      · subst hac
        simp only [if_pos rfl] at h
        have := ih h
        simp [this]
      · simp [hac] at h

theorem matchLit_sound {R : Type} {L s : Str} {k : Str → Option R} {r : R}
    (h : matchLit L s k = some r) : ∃ b, s = L ++ b ∧ k b = some r := by
  unfold matchLit at h
  cases hc : chopLit L s with
  | none => rw [hc] at h; exact absurd h (by simp)
  | some b =>
    rw [hc] at h
    exact ⟨b, chopLit_sound hc, h⟩

theorem matchCls_sound {R : Type} {p : Char → Bool} {s : Str} {k : Str → Option R} {r : R}
    (h : matchCls p s k = some r) : ∃ c b, s = c :: b ∧ p c = true ∧ k b = some r := by
  cases s with
  | nil => simp [matchCls] at h
  | cons c cs =>
    by_cases hp : p c = true
    · refine ⟨c, cs, rfl, hp, ?_⟩
      simpa [matchCls, hp] using h
    · simp [matchCls, hp] at h

theorem tryStar_sound {R : Type} {p : Char → Bool} {k : Str → Option R} {r : R} :
    ∀ {s : Str}, tryStar p s k = some r →
      ∃ a b, s = a ++ b ∧ (∀ c ∈ a, p c = true) ∧ k b = some r := by
  intro s
  induction s with
  | nil =>
    intro h
    exact ⟨[], [], rfl, by simp, by simpa [tryStar] using h⟩
  | cons c cs ih =>
    intro h
    by_cases hp : p c = true
    · simp only [tryStar, hp, if_pos] at h
      rcases firstSome_some h with h1 | h1
      · obtain ⟨a, b, hab, hpa, hk⟩ := ih h1
        refine ⟨c :: a, b, by simp [hab], ?_, hk⟩
        intro x hx
        rcases List.mem_cons.mp hx with hx | hx
        · rw [hx]; exact hp
        · exact hpa x hx
      · exact ⟨[], c :: cs, rfl, by simp, h1⟩
    · simp only [tryStar, hp, if_neg, Bool.not_eq_true] at h
      exact ⟨[], c :: cs, rfl, by simp, h⟩

theorem tryLazy_sound {R : Type} {p : Char → Bool} {k : Str → Str → Option R} {r : R} :
    ∀ {s acc : Str}, tryLazy p acc s k = some r →
      ∃ a b, s = a ++ b ∧ a ≠ [] ∧ (∀ c ∈ a, p c = true) ∧ k (acc ++ a) b = some r := by
  intro s
  induction s with
  | nil => intro acc h; simp [tryLazy] at h
  | cons c cs ih =>
    intro acc h
    by_cases hp : p c = true
    · simp only [tryLazy, hp, if_pos] at h
      rcases firstSome_some h with h1 | h1
      · exact ⟨[c], cs, rfl, by simp, by simp [hp], h1⟩
      · obtain ⟨a, b, hab, hne, hpa, hk⟩ := ih h1
        refine ⟨c :: a, b, by simp [hab], by simp, ?_, ?_⟩
        · intro x hx
          rcases List.mem_cons.mp hx with hx | hx
          · rw [hx]; exact hp
          · exact hpa x hx
        · rw [show acc ++ c :: a = (acc ++ [c]) ++ a by simp]
          exact hk
    · simp [tryLazy, hp] at h

theorem tryGreedy_sound {R : Type} {p : Char → Bool} {k : Str → Str → Option R} {r : R} :
    ∀ {s acc : Str}, tryGreedy p acc s k = some r →
      ∃ a b, s = a ++ b ∧ acc ++ a ≠ [] ∧ (∀ c ∈ a, p c = true) ∧
        k (acc ++ a) b = some r := by
  intro s
  induction s with
  | nil =>
    intro acc h
    simp only [tryGreedy] at h
    by_cases he : acc.isEmpty
    · simp [he] at h
    · refine ⟨[], [], rfl, ?_, by simp, ?_⟩
      · simpa [List.isEmpty_iff] using he
      · simpa [he] using h
  | cons c cs ih =>
    intro acc h
    by_cases hp : p c = true
    · simp only [tryGreedy, hp, if_pos] at h
      rcases firstSome_some h with h1 | h1
      · obtain ⟨a, b, hab, hne, hpa, hk⟩ := ih h1
        refine ⟨c :: a, b, by simp [hab], by simp, ?_, ?_⟩
        · intro x hx
          rcases List.mem_cons.mp hx with hx | hx
          · rw [hx]; exact hp
          · exact hpa x hx
        · rw [show acc ++ c :: a = (acc ++ [c]) ++ a by simp]
          exact hk
      · by_cases he : acc.isEmpty
        · simp [he] at h1
        · refine ⟨[], c :: cs, rfl, ?_, by simp, ?_⟩
          · simpa [List.isEmpty_iff] using he
          · simpa [he] using h1
    · simp only [tryGreedy, hp, if_neg, Bool.not_eq_true] at h
      by_cases he : acc.isEmpty
      · simp [he] at h
      · refine ⟨[], c :: cs, rfl, ?_, by simp, ?_⟩
        · simpa [List.isEmpty_iff] using he
        · simpa [he] using h

theorem mem_take_of_le_takeWhile {p : Char → Bool} :
    ∀ {s : Str} {n : Nat}, n ≤ (s.takeWhile p).length → ∀ c ∈ s.take n, p c = true := by
  intro s
  induction s with
  | nil => intro n _ c hc; simp at hc
  | cons x cs ih =>
    intro n hn c hc
    cases n with
    | zero => simp at hc
    | succ m =>
      by_cases hp : p x = true
      · simp only [List.takeWhile_cons, hp, if_pos, List.length_cons] at hn
        simp only [List.take_succ_cons] at hc
        rcases List.mem_cons.mp hc with hx | hx
        · rw [hx]; exact hp
        · exact ih (by omega) c hx
      · simp [List.takeWhile_cons, hp] at hn
      
theorem tryDigits56_sound {R : Type} {s : Str} {k : Str → Str → Option R} {r : R}
    (h : tryDigits56 s k = some r) :
    ∃ a b, s = a ++ b ∧ (∀ c ∈ a, isDigitPy c = true) ∧
      (a.length = 5 ∨ a.length = 6) ∧ k a b = some r := by
  have htwle : (s.takeWhile isDigitPy).length ≤ s.length := by
    simpa using List.Sublist.length_le (List.takeWhile_sublist isDigitPy)
  unfold tryDigits56 at h
  by_cases h6 : 6 ≤ (s.takeWhile isDigitPy).length
  · rw [if_pos h6] at h
    rcases firstSome_some h with h1 | h1
    · refine ⟨s.take 6, s.drop 6, (List.take_append_drop 6 s).symm,
        mem_take_of_le_takeWhile h6, ?_, h1⟩
      right
      simp [List.length_take]
      omega
    · refine ⟨s.take 5, s.drop 5, (List.take_append_drop 5 s).symm,
        mem_take_of_le_takeWhile (by omega), ?_, h1⟩
      left
      simp [List.length_take]
      omega
  · rw [if_neg h6] at h
    by_cases h5 : (s.takeWhile isDigitPy).length = 5
    · rw [if_pos h5] at h
      refine ⟨s.take 5, s.drop 5, (List.take_append_drop 5 s).symm,
        mem_take_of_le_takeWhile (by omega), ?_, h⟩
      left
      simp [List.length_take]
      omega
    · rw [if_neg h5] at h
      exact absurd h (by simp)

theorem reSearch_sound {R : Type} {m : Str → Option R} {r : R} :
    ∀ {q : Str}, reSearch m q = some r → ∃ a b, q = a ++ b ∧ m b = some r := by
  intro q
  induction q with
  | nil => intro h; exact ⟨[], [], rfl, by simpa [reSearch] using h⟩
  | cons c cs ih =>
    intro h
    simp only [reSearch] at h
    rcases firstSome_some h with h1 | h1
    · exact ⟨[], c :: cs, rfl, h1⟩
    · obtain ⟨a, b, hab, hm⟩ := ih h1
      exact ⟨c :: a, b, by simp [hab], hm⟩

theorem tryOptWsLit2_sound {R : Type} {L1 L2 s : Str} {k : Str → Option R} {r : R}
    (h : tryOptWsLit2 L1 L2 s k = some r) : ∃ a b, s = a ++ b ∧ k b = some r := by
  unfold tryOptWsLit2 at h
  rcases firstSome_some h with h1 | h1
  · obtain ⟨a, b, hab, _, hm⟩ := tryStar_sound h1
    obtain ⟨b2, hb2, hk⟩ := matchLit_sound hm
    exact ⟨a ++ L1, b2, by simp [hab, hb2], hk⟩
  rcases firstSome_some h1 with h2 | h2
  · obtain ⟨a, b, hab, _, hm⟩ := tryStar_sound h2
    obtain ⟨b2, hb2, hk⟩ := matchLit_sound hm
    exact ⟨a ++ L2, b2, by simp [hab, hb2], hk⟩
  · exact ⟨[], s, rfl, h2⟩

theorem tryOptLits_sound {R : Type} {k : Str → Option R} {r : R} :
    ∀ {Ls : List Str} {s : Str}, tryOptLits Ls s k = some r →
      ∃ a b, s = a ++ b ∧ k b = some r := by
  intro Ls
  induction Ls with
  | nil => intro s h; exact ⟨[], s, rfl, by simpa [tryOptLits] using h⟩
  | cons L rest ih =>
    intro s h
    simp only [tryOptLits] at h
    rcases firstSome_some h with h1 | h1
    · obtain ⟨b, hb, hk⟩ := matchLit_sound h1
      exact ⟨L, b, hb, hk⟩
    · exact ih h1

theorem tryAltLits_sound {R : Type} {k : Str → Option R} {r : R} :
    ∀ {Ls : List Str} {s : Str}, tryAltLits Ls s k = some r →
      ∃ L, L ∈ Ls ∧ ∃ b, s = L ++ b ∧ k b = some r := by
  intro Ls
  induction Ls with
  | nil => intro s h; simp [tryAltLits] at h
  | cons L rest ih =>
    intro s h
    simp only [tryAltLits] at h
    rcases firstSome_some h with h1 | h1
    · obtain ⟨b, hb, hk⟩ := matchLit_sound h1
      exact ⟨L, by simp, b, hb, hk⟩
    · obtain ⟨L2, hL2, hrest⟩ := ih h1
      exact ⟨L2, by simp [hL2], hrest⟩

theorem endAlt_sound {R : Type} {s : Str} {k : Str → Option R} {r : R}
    (h : endAlt s k = some r) : ∃ a b, s = a ++ b ∧ k b = some r := by
  unfold endAlt at h
  rcases firstSome_some h with h1 | h1
  · obtain ⟨a, b, hab, _, hm⟩ := tryStar_sound h1
    obtain ⟨b2, hb2, hk⟩ := matchLit_sound hm
    exact ⟨a ++ litDe, b2, by simp [hab, hb2], hk⟩
  rcases firstSome_some h1 with h2 | h2
  · cases s with
    | nil => simp at h2
    | cons c cs =>
      by_cases hsp : isSpacePy c = true
      · exact ⟨[c], cs, rfl, by simpa [hsp] using h2⟩
      · simp [hsp] at h2
  · by_cases hend : s = [] ∨ s = ['\n']
    · rw [if_pos hend] at h2
      exact ⟨[], s, rfl, h2⟩
    · rw [if_neg hend] at h2
      exact absurd h2 (by simp)

/-! ## Helper facts about characters and stripping -/

theorem indep_not_space {c : Char} (h : isIndepChar c = true) : isSpacePy c = false := by
  cases hsp : isSpacePy c
  · rfl
  · simp [isIndepChar, hsp] at h

theorem dropWhile_eq_self_of_head {p : Char → Bool} {l : Str}
    (h : ∀ c cs, l = c :: cs → p c = false) : l.dropWhile p = l := by
  cases l with
  | nil => rfl
  | cons c cs => simp [List.dropWhile_cons, h c cs rfl]

theorem stripStr_of_noSpace {l : Str} (h : ∀ c ∈ l, isSpacePy c = false) :
    stripStr l = l := by
  unfold stripStr
  have h1 : l.dropWhile isSpacePy = l := by
    apply dropWhile_eq_self_of_head
    intro c cs hc
    exact h c (by simp [hc])
  rw [h1]
  have h2 : l.reverse.dropWhile isSpacePy = l.reverse := by
    apply dropWhile_eq_self_of_head
    intro c cs hc
    refine h c ?_
    have : c ∈ l.reverse := by simp [hc]
    simpa using this
  rw [h2, List.reverse_reverse]

/-! ## Per-pattern soundness -/

theorem tailA3_sound {name s : Str} {r : Str × Str} (h : tailA3 name s = some r) :
    (∃ c ∈ s, isOpenPar c = true) ∧ r.1 = name ∧ IsCode r.2 := by
  unfold tailA3 at h
  obtain ⟨a1, b1, hs, _, h1⟩ := tryStar_sound h
  obtain ⟨c, b2, hb1, hopen, h2⟩ := matchCls_sound h1
  obtain ⟨a3, b3, hb2, hdig, hlen, h3⟩ := tryDigits56_sound h2
  obtain ⟨c2, b4, hb3, hclose, h4⟩ := matchCls_sound h3
  simp only [Option.some.injEq] at h4
  refine ⟨⟨c, ?_, hopen⟩, ?_, ?_⟩
  · rw [hs, hb1]; simp
  · rw [← h4]
  · rw [← h4]
    exact ⟨hdig, hlen⟩

theorem tailA1_sound {s : Str} {r : Str × Str} (h : tailA1 s = some r) :
    (∃ c ∈ s, isOpenPar c = true) ∧ IsCode r.2 := by
  unfold tailA1 at h
  obtain ⟨a, b, hs, _, _, hk⟩ := tryLazy_sound h
  obtain ⟨⟨c, hc, hopen⟩, _, hcode⟩ := tailA3_sound hk
  exact ⟨⟨c, by rw [hs]; simp [hc], hopen⟩, hcode⟩

theorem tailA_sound {s : Str} {r : Str × Str} (h : tailA s = some r) :
    (∃ c ∈ s, isOpenPar c = true) ∧ IsCode r.2 := by
  unfold tailA at h
  obtain ⟨a, b, hs, _, hk⟩ := tryStar_sound h
  obtain ⟨⟨c, hc, hopen⟩, hcode⟩ := tailA1_sound hk
  exact ⟨⟨c, by rw [hs]; simp [hc], hopen⟩, hcode⟩

theorem kwTailA_sound {kw s : Str} {r : Str × Str} (h : matchLit kw s tailA = some r) :
    (∃ c ∈ s, isOpenPar c = true) ∧ IsCode r.2 := by
  obtain ⟨b, hs, hk⟩ := matchLit_sound h
  obtain ⟨⟨c, hc, hopen⟩, hcode⟩ := tailA_sound hk
  exact ⟨⟨c, by rw [hs]; simp [hc], hopen⟩, hcode⟩

theorem mem_of_reSearch {x : Char} {a b q : Str} (hq : q = a ++ b) (hx : x ∈ b) :
    x ∈ q := by
  rw [hq]; simp [hx]

theorem pat1_sound {q : Str} {r : Str × Str} (h : reSearch pat1At q = some r) :
    (∃ c ∈ q, isOpenPar c = true) ∧ IsCode r.2 := by
  obtain ⟨a, b, hq, hm⟩ := reSearch_sound h
  obtain ⟨⟨c, hc, hopen⟩, hcode⟩ := kwTailA_sound hm
  exact ⟨⟨c, mem_of_reSearch hq hc, hopen⟩, hcode⟩

theorem pat2_sound {q : Str} {r : Str × Str} (h : reSearch pat2At q = some r) :
    (∃ c ∈ q, isOpenPar c = true) ∧ IsCode r.2 := by
  obtain ⟨a, b, hq, hm⟩ := reSearch_sound h
  obtain ⟨⟨c, hc, hopen⟩, hcode⟩ := kwTailA_sound hm
  exact ⟨⟨c, mem_of_reSearch hq hc, hopen⟩, hcode⟩

theorem pat3_sound {q : Str} {r : Str × Str} (h : reSearch pat3At q = some r) :
    (∃ c ∈ q, isOpenPar c = true) ∧ IsCode r.2 := by
  obtain ⟨a, b, hq, hm⟩ := reSearch_sound h
  obtain ⟨⟨c, hc, hopen⟩, hcode⟩ := kwTailA_sound hm
  exact ⟨⟨c, mem_of_reSearch hq hc, hopen⟩, hcode⟩

theorem pat6_sound {q : Str} {r : Str × Str} (h : reSearch pat6At q = some r) :
    (∃ c ∈ q, isOpenPar c = true) ∧ IsCode r.2 := by
  obtain ⟨a, b, hq, hm⟩ := reSearch_sound h
  obtain ⟨⟨c, hc, hopen⟩, hcode⟩ := kwTailA_sound hm
  exact ⟨⟨c, mem_of_reSearch hq hc, hopen⟩, hcode⟩

theorem pat7_sound {q : Str} {r : Str × Str} (h : reSearch pat7At q = some r) :
    (∃ c ∈ q, isOpenPar c = true) ∧ IsCode r.2 := by
  obtain ⟨a, b, hq, hm⟩ := reSearch_sound h
  obtain ⟨⟨c, hc, hopen⟩, hcode⟩ := kwTailA_sound hm
  exact ⟨⟨c, mem_of_reSearch hq hc, hopen⟩, hcode⟩

theorem pat4_sound {q : Str} {r : Str × Str} (h : reSearch pat4At q = some r) :
    (∃ c ∈ q, isOpenPar c = true) ∧ IsCode r.1 := by
  obtain ⟨a, b, hq, hm⟩ := reSearch_sound h
  unfold pat4At at hm
  obtain ⟨b1, hb, h1⟩ := matchLit_sound hm
  obtain ⟨a2, b2, hb1, _, h2⟩ := tryStar_sound h1
  obtain ⟨c, b3, hb2, hopen, h3⟩ := matchCls_sound h2
  obtain ⟨a4, b4, hb3, hdig, hlen, h4⟩ := tryDigits56_sound h3
  obtain ⟨c2, b5, hb4, hclose, h5⟩ := matchCls_sound h4
  obtain ⟨a6, b6, hb5, _, h6⟩ := tryStar_sound h5
  obtain ⟨a7, b7, hb6, _, _, h7⟩ := tryGreedy_sound h6
  simp only [Option.some.injEq] at h7
  refine ⟨⟨c, ?_, hopen⟩, ?_⟩
  · rw [hq, hb, hb1, hb2]; simp
  · rw [← h7]
    exact ⟨hdig, hlen⟩

theorem pat5_sound {q : Str} {r : Str × Str} (h : reSearch pat5At q = some r) :
    (∃ c ∈ q, isOpenPar c = true) ∧ IsCode r.1 := by
  obtain ⟨a, b, hq, hm⟩ := reSearch_sound h
  unfold pat5At at hm
  obtain ⟨b1, hb, h1⟩ := matchLit_sound hm
  obtain ⟨a2, b2, hb1, _, h2⟩ := tryStar_sound h1
  obtain ⟨c, b3, hb2, hopen, h3⟩ := matchCls_sound h2
  obtain ⟨a4, b4, hb3, hdig, hlen, h4⟩ := tryDigits56_sound h3
  obtain ⟨c2, b5, hb4, hclose, h5⟩ := matchCls_sound h4
  obtain ⟨a6, b6, hb5, _, h6⟩ := tryStar_sound h5
  obtain ⟨a7, b7, hb6, _, _, h7⟩ := tryLazy_sound h6
  obtain ⟨a8, b8, hb7, h8⟩ := tryOptWsLit2_sound h7
  obtain ⟨a9, b9, hb8, _, h9⟩ := tryStar_sound h8
  obtain ⟨b10, hb9, h10⟩ := matchLit_sound h9
  simp only [Option.some.injEq] at h10
  refine ⟨⟨c, ?_, hopen⟩, ?_⟩
  · rw [hq, hb, hb1, hb2]; simp
  · rw [← h10]
    exact ⟨hdig, hlen⟩

theorem pat8_sound {q : Str} {r : Str × Str} (h : pat8 q = some r) :
    (∃ c ∈ q, isOpenPar c = true) ∧ IsCode r.2 :=
  tailA1_sound h

theorem pat9_sound {q n : Str} (h : reSearch pat9At q = some n) :
    ('下' ∈ q) ∧ n ≠ [] ∧ (∀ c ∈ n, isIndepChar c = true) := by
  obtain ⟨a, b, hq, hm⟩ := reSearch_sound h
  unfold pat9At at hm
  obtain ⟨b1, hb, h1⟩ := matchLit_sound hm
  obtain ⟨a2, b2, hb1, _, h2⟩ := tryStar_sound h1
  obtain ⟨a3, b3, hb2, hne, hind, h3⟩ := tryLazy_sound h2
  obtain ⟨a4, b4, hb3, h4⟩ := endAlt_sound h3
  simp only [Option.some.injEq] at h4
  subst h4
  refine ⟨?_, by simpa using hne, by simpa using hind⟩
  rw [hq, hb]
  have : '下' ∈ kwFenxiYixia := by decide
  simp [this]

theorem pat10_sound {q n : Str} (h : reSearch pat10At q = some n) :
    ('分' ∈ q) ∧ n ≠ [] ∧ (∀ c ∈ n, isIndepChar c = true) := by
  obtain ⟨a, b, hq, hm⟩ := reSearch_sound h
  unfold pat10At pat10Tail at hm
  obtain ⟨b1, hb, h1⟩ := matchLit_sound hm
  obtain ⟨a2, b2, hb1, _, h2⟩ := tryStar_sound h1
  obtain ⟨a3, b3, hb2, hne, hind, h3⟩ := tryGreedy_sound h2
  simp only [Option.some.injEq] at h3
  subst h3
  refine ⟨?_, by simpa using hne, by simpa using hind⟩
  rw [hq, hb]
  have : '分' ∈ kwFenxi := by decide
  simp [this]

theorem pat11_sound {q n : Str} (h : reSearch pat11At q = some n) :
    ('股' ∈ q) ∧ n ≠ [] ∧ (∀ c ∈ n, isIndepChar c = true) := by
  obtain ⟨a, b, hq, hm⟩ := reSearch_sound h
  unfold pat11At at hm
  obtain ⟨a1, b1, hb, hne, hind, h1⟩ := tryGreedy_sound hm
  obtain ⟨a2, b2, hb1, _, h2⟩ := tryStar_sound h1
  obtain ⟨a3, b3, hb2, h3⟩ := tryOptLits_sound h2
  obtain ⟨a4, b4, hb3, _, h4⟩ := tryStar_sound h3
  obtain ⟨b5, hb4, h5⟩ := matchLit_sound h4
  simp only [Option.some.injEq] at h5
  subst h5
  refine ⟨?_, by simpa using hne, by simpa using hind⟩
  rw [hq, hb, hb1, hb2, hb3, hb4]
  have : '股' ∈ litGupiao := by decide
  simp [this]

theorem pat12_sound {q n : Str} (h : reSearch pat12At q = some n) :
    ('了' ∈ q) ∧ n ≠ [] ∧ (∀ c ∈ n, isIndepChar c = true) := by
  obtain ⟨a, b, hq, hm⟩ := reSearch_sound h
  unfold pat12At at hm
  obtain ⟨b1, hb, h1⟩ := matchLit_sound hm
  obtain ⟨a2, b2, hb1, _, h2⟩ := tryStar_sound h1
  obtain ⟨a3, b3, hb2, hne, hind, h3⟩ := tryLazy_sound h2
  obtain ⟨a4, b4, hb3, h4⟩ := endAlt_sound h3
  simp only [Option.some.injEq] at h4
  subst h4
  refine ⟨?_, by simpa using hne, by simpa using hind⟩
  rw [hq, hb]
  have : '了' ∈ kwLiaojieYixia := by decide
  simp [this]

theorem pat13_sound {q n : Str} (h : reSearch pat13At q = some n) :
    ('给' ∈ q) ∧ n ≠ [] ∧ (∀ c ∈ n, isIndepChar c = true) := by
  obtain ⟨a, b, hq, hm⟩ := reSearch_sound h
  unfold pat13At at hm
  obtain ⟨b1, hb, h1⟩ := matchLit_sound hm
  obtain ⟨a2, b2, hb1, _, h2⟩ := tryStar_sound h1
  obtain ⟨a3, b3, hb2, hne, hind, h3⟩ := tryLazy_sound h2
  obtain ⟨a4, b4, hb3, h4⟩ := endAlt_sound h3
  simp only [Option.some.injEq] at h4
  subst h4
  refine ⟨?_, by simpa using hne, by simpa using hind⟩
  rw [hq, hb]
  have : '给' ∈ kwGeiwoFenxi := by decide
  simp [this]

theorem pat14_sound {q n : Str} (h : reSearch pat14At q = some n) :
    ('的' ∈ q) ∧ n ≠ [] ∧ (∀ c ∈ n, isIndepChar c = true) := by
  obtain ⟨a, b, hq, hm⟩ := reSearch_sound h
  unfold pat14At at hm
  obtain ⟨a1, b1, hb, hne, hind, h1⟩ := tryLazy_sound hm
  obtain ⟨a2, b2, hb1, _, h2⟩ := tryStar_sound h1
  obtain ⟨b3, hb2, h3⟩ := matchLit_sound h2
  obtain ⟨a4, b4, hb3, _, h4⟩ := tryStar_sound h3
  obtain ⟨L, hL, b5, hb4, h5⟩ := tryAltLits_sound h4
  simp only [Option.some.injEq] at h5
  subst h5
  refine ⟨?_, by simpa using hne, by simpa using hind⟩
  rw [hq, hb, hb1, hb2]
  have : '的' ∈ litDe := by decide
  simp [this]

theorem pat15_sound {q n : Str} (h : reSearch pat15At q = some n) :
    ('在' ∈ q) ∧ n ≠ [] ∧ (∀ c ∈ n, isIndepChar c = true) := by
  obtain ⟨a, b, hq, hm⟩ := reSearch_sound h
  unfold pat15At at hm
  obtain ⟨a1, b1, hb, hne, hind, h1⟩ := tryLazy_sound hm
  obtain ⟨a2, b2, hb1, _, h2⟩ := tryStar_sound h1
  obtain ⟨b3, hb2, h3⟩ := matchLit_sound h2
  refine ⟨?_, ?_, ?_⟩
  · rw [hq, hb, hb1, hb2]
    have : '在' ∈ litZai := by decide
    simp [this]
  · obtain ⟨a4, b4, hb3, _, h4⟩ := tryStar_sound h3
    obtain ⟨a5, b5, hb4, _, h5⟩ := tryStar_sound h4
    obtain ⟨a6, b6, hb5, _, h6⟩ := tryStar_sound h5
    obtain ⟨b7, hb6, h7⟩ := matchLit_sound h6
    simp only [Option.some.injEq] at h7
    subst h7
    simpa using hne
  · obtain ⟨a4, b4, hb3, _, h4⟩ := tryStar_sound h3
    obtain ⟨a5, b5, hb4, _, h5⟩ := tryStar_sound h4
    obtain ⟨a6, b6, hb5, _, h6⟩ := tryStar_sound h5
    obtain ⟨b7, hb6, h7⟩ := matchLit_sound h6
    simp only [Option.some.injEq] at h7
    subst h7
    simpa using hind

theorem pat16_sound {q n : Str} (h : reSearch pat16At q = some n) :
    ('在' ∈ q) ∧ n ≠ [] ∧ (∀ c ∈ n, isIndepChar c = true) := by
  obtain ⟨a, b, hq, hm⟩ := reSearch_sound h
  unfold pat16At at hm
  obtain ⟨a1, b1, hb, hne, hind, h1⟩ := tryLazy_sound hm
  obtain ⟨a2, b2, hb1, _, h2⟩ := tryStar_sound h1
  obtain ⟨b3, hb2, h3⟩ := matchLit_sound h2
  refine ⟨?_, ?_⟩
  · rw [hq, hb, hb1, hb2]
    have : '在' ∈ litZai := by decide
    simp [this]
  · obtain ⟨a4, b4, hb3, _, h4⟩ := tryStar_sound h3
    obtain ⟨a5, b5, hb4, _, h5⟩ := tryStar_sound h4
    obtain ⟨a6, b6, hb5, _, h6⟩ := tryStar_sound h5
    obtain ⟨b7, hb6, h7⟩ := matchLit_sound h6
    obtain ⟨a8, b8, hb7, _, h8⟩ := tryStar_sound h7
    obtain ⟨b9, hb8, h9⟩ := matchLit_sound h8
    simp only [Option.some.injEq] at h9
    subst h9
    exact ⟨by simpa using hne, by simpa using hind⟩

theorem pat17_sound {q n : Str} (h : reSearch pat17At q = some n) :
    ('面' ∈ q) ∧ n ≠ [] ∧ (∀ c ∈ n, isIndepChar c = true) := by
  obtain ⟨a, b, hq, hm⟩ := reSearch_sound h
  unfold pat17At at hm
  obtain ⟨a1, b1, hb, hne, hind, h1⟩ := tryLazy_sound hm
  obtain ⟨a2, b2, hb1, _, h2⟩ := tryStar_sound h1
  obtain ⟨b3, hb2, h3⟩ := matchLit_sound h2
  simp only [Option.some.injEq] at h3
  subst h3
  refine ⟨?_, by simpa using hne, by simpa using hind⟩
  rw [hq, hb, hb1, hb2]
  have : '面' ∈ litMianlin := by decide
  simp [this]

theorem pat19_sound {q n : Str} (h : reSearch pat19At q = some n) :
    ('股' ∈ q) ∧ IsCode n := by
  obtain ⟨a, b, hq, hm⟩ := reSearch_sound h
  unfold pat19At at hm
  obtain ⟨a1, b1, hb, hdig, hlen, h1⟩ := tryDigits56_sound hm
  obtain ⟨a2, b2, hb1, _, h2⟩ := tryStar_sound h1
  obtain ⟨a3, b3, hb2, h3⟩ := tryOptLits_sound h2
  obtain ⟨a4, b4, hb3, _, h4⟩ := tryStar_sound h3
  obtain ⟨b5, hb4, h5⟩ := matchLit_sound h4
  obtain ⟨a6, b6, hb5, _, h6⟩ := tryStar_sound h5
  obtain ⟨b7, hb6, h7⟩ := matchLit_sound h6
  simp only [Option.some.injEq] at h7
  subst h7
  refine ⟨?_, hdig, hlen⟩
  rw [hq, hb, hb1, hb2, hb3, hb4]
  have : '股' ∈ litGupiao := by decide
  simp [this]

theorem pat20_sound {q n : Str} (h : reSearch pat20At q = some n) :
    ('这' ∈ q) ∧ IsCode n := by
  obtain ⟨a, b, hq, hm⟩ := reSearch_sound h
  unfold pat20At at hm
  obtain ⟨a1, b1, hb, hdig, hlen, h1⟩ := tryDigits56_sound hm
  obtain ⟨a2, b2, hb1, _, h2⟩ := tryStar_sound h1
  obtain ⟨b3, hb2, h3⟩ := matchLit_sound h2
  obtain ⟨a4, b4, hb3, _, h4⟩ := tryStar_sound h3
  obtain ⟨b5, hb4, h5⟩ := matchLit_sound h4
  obtain ⟨a6, b6, hb5, _, h6⟩ := tryStar_sound h5
  obtain ⟨b7, hb6, h7⟩ := matchLit_sound h6
  simp only [Option.some.injEq] at h7
  subst h7
  refine ⟨?_, hdig, hlen⟩
  rw [hq, hb, hb1, hb2]
  have : '这' ∈ litZhege := by decide
  simp [this]

theorem attempt18_sound {s code : Str} (h : attempt18 s = some code) : IsCode code := by
  have htwle : (s.takeWhile isDigitPy).length ≤ s.length := by
    simpa using List.Sublist.length_le (List.takeWhile_sublist isDigitPy)
  unfold attempt18 at h
  by_cases h6 : 6 ≤ (s.takeWhile isDigitPy).length
  · rw [if_pos h6] at h
    by_cases hb6 : boundaryAfter (s.drop 6) = true
    · rw [if_pos hb6] at h
      simp only [Option.some.injEq] at h
      subst h
      refine ⟨mem_take_of_le_takeWhile h6, Or.inr ?_⟩
      simp [List.length_take]
      omega
    · rw [if_neg hb6] at h
      by_cases hb5 : boundaryAfter (s.drop 5) = true
      · rw [if_pos hb5] at h
        simp only [Option.some.injEq] at h
        subst h
        refine ⟨mem_take_of_le_takeWhile (by omega), Or.inl ?_⟩
        simp [List.length_take]
        omega
      · rw [if_neg hb5] at h
        exact absurd h (by simp)
  · rw [if_neg h6] at h
    by_cases h5 : (s.takeWhile isDigitPy).length = 5
    · rw [if_pos h5] at h
      by_cases hb5 : boundaryAfter (s.drop 5) = true
      · rw [if_pos hb5] at h
        simp only [Option.some.injEq] at h
        subst h
        refine ⟨mem_take_of_le_takeWhile (by omega), Or.inl ?_⟩
        simp [List.length_take]
        omega
      · rw [if_neg hb5] at h
        exact absurd h (by simp)
    · rw [if_neg h5] at h
      exact absurd h (by simp)

theorem findCode18_code : ∀ {s : Str} {pw : Bool} {code : Str},
    findCode18 pw s = some code → IsCode code := by
  intro s
  induction s with
  | nil => intro pw code h; simp [findCode18] at h
  | cons c cs ih =>
    intro pw code h
    simp only [findCode18] at h
    by_cases hcond : (!pw && isDigitPy c) = true
    · rw [if_pos hcond] at h
      cases hat : attempt18 (c :: cs) with
      | some code2 =>
        rw [hat] at h
        simp only [Option.some.injEq] at h
        subst h
        exact attempt18_sound hat
      | none =>
        rw [hat] at h
        exact ih h
    · rw [if_neg hcond] at h
      exact ih h

theorem findCode18_position : ∀ {s : Str} {pw : Bool} {code : Str},
    findCode18 pw s = some code →
    ∃ a c bs, s = a ++ c :: bs ∧ isDigitPy c = true ∧
      ((a = [] ∧ pw = false) ∨ ∃ a2 w, a = a2 ++ [w] ∧ isWordChar w = false) := by
  intro s
  induction s with
  | nil => intro pw code h; simp [findCode18] at h
  | cons c cs ih =>
    intro pw code h
    simp only [findCode18] at h
    by_cases hcond : (!pw && isDigitPy c) = true
    · rw [if_pos hcond] at h
      simp only [Bool.and_eq_true, Bool.not_eq_true'] at hcond
      cases hat : attempt18 (c :: cs) with
      | some code2 =>
        exact ⟨[], c, cs, rfl, hcond.2, Or.inl ⟨rfl, hcond.1⟩⟩
      | none =>
        rw [hat] at h
        obtain ⟨a, c2, bs, hcs, hdig, hcase⟩ := ih h
        refine ⟨c :: a, c2, bs, by simp [hcs], hdig, Or.inr ?_⟩
        rcases hcase with ⟨ha, hw⟩ | ⟨a2, w, ha, hw⟩
        · exact ⟨[], c, by simp [ha], hw⟩
        · exact ⟨c :: a2, w, by simp [ha], hw⟩
    · rw [if_neg hcond] at h
      obtain ⟨a, c2, bs, hcs, hdig, hcase⟩ := ih h
      refine ⟨c :: a, c2, bs, by simp [hcs], hdig, Or.inr ?_⟩
      rcases hcase with ⟨ha, hw⟩ | ⟨a2, w, ha, hw⟩
      · exact ⟨[], c, by simp [ha], hw⟩
      · exact ⟨c :: a2, w, by simp [ha], hw⟩

/-! ## Extractor-level invariants -/

theorem matchFirst8_code {q : Str} {nc : String × String} (h : matchFirst8 q = some nc) :
    IsCode nc.2.data := by
  unfold matchFirst8 at h
  cases h1 : reSearch pat1At q with
  | some r =>
    rw [h1] at h
    obtain ⟨name, code⟩ := r
    simp only [Option.some.injEq] at h
    subst h
    exact (pat1_sound h1).2
  | none =>
  rw [h1] at h
  cases h2 : reSearch pat2At q with
  | some r =>
    rw [h2] at h
    obtain ⟨name, code⟩ := r
    simp only [Option.some.injEq] at h
    subst h
    exact (pat2_sound h2).2
  | none =>
  rw [h2] at h
  cases h3 : reSearch pat3At q with
  | some r =>
    rw [h3] at h
    obtain ⟨name, code⟩ := r
    simp only [Option.some.injEq] at h
    subst h
    exact (pat3_sound h3).2
  | none =>
  rw [h3] at h
  cases h4 : reSearch pat4At q with
  | some r =>
    rw [h4] at h
    obtain ⟨code, name⟩ := r
    simp only [Option.some.injEq] at h
    subst h
    exact (pat4_sound h4).2
  | none =>
  rw [h4] at h
  cases h5 : reSearch pat5At q with
  | some r =>
    rw [h5] at h
    obtain ⟨code, name⟩ := r
    simp only [Option.some.injEq] at h
    subst h
    exact (pat5_sound h5).2
  | none =>
  rw [h5] at h
  cases h6 : reSearch pat6At q with
  | some r =>
    rw [h6] at h
    obtain ⟨name, code⟩ := r
    simp only [Option.some.injEq] at h
    subst h
    exact (pat6_sound h6).2
  | none =>
  rw [h6] at h
  cases h7 : reSearch pat7At q with
  | some r =>
    rw [h7] at h
    obtain ⟨name, code⟩ := r
    simp only [Option.some.injEq] at h
    subst h
    exact (pat7_sound h7).2
  | none =>
  rw [h7] at h
  cases h8 : pat8 q with
  | some r =>
    rw [h8] at h
    obtain ⟨name, code⟩ := r
    simp only [Option.some.injEq] at h
    subst h
    exact (pat8_sound h8).2
  | none =>
    rw [h8] at h
    exact absurd h (by simp)

theorem guardCode_sound {prev found : Option Str} {c : Str}
    (hc : guardCode prev found = some c)
    (hprev : ∀ x, prev = some x → IsCode x)
    (hfound : ∀ x, found = some x → IsCode x) : IsCode c := by
  unfold guardCode at hc
  cases found with
  | none => exact hprev c hc
  | some f =>
    cases hfb : falsyStr prev with
    | true =>
      rw [hfb] at hc
      simp only [Option.some.injEq] at hc
      subst hc
      exact hfound f rfl
    | false =>
      rw [hfb] at hc
      exact hprev c hc

theorem indepCode_sound {q : Str} {c : Str} (h : indepCode q = some c) : IsCode c := by
  unfold indepCode at h
  refine guardCode_sound h (fun x hx => ?_) (fun x hx => (pat20_sound hx).2)
  refine guardCode_sound hx (fun y hy => findCode18_code hy) (fun y hy => (pat19_sound hy).2)

theorem guardName_sound {prev found : Option Str} {nm : Str}
    (hc : guardName prev found = some nm)
    (hprev : ∀ x, prev = some x → x ≠ [])
    (hfound : ∀ x, found = some x → stripStr x ≠ []) : nm ≠ [] := by
  unfold guardName at hc
  cases found with
  | none => exact hprev nm hc
  | some f =>
    cases hfb : falsyStr prev with
    | true =>
      rw [hfb] at hc
      simp only [Option.some.injEq] at hc
      subst hc
      exact hfound f rfl
    | false =>
      rw [hfb] at hc
      exact hprev nm hc

theorem strip_indep_ne {n : Str} (hne : n ≠ []) (hind : ∀ c ∈ n, isIndepChar c = true) :
    stripStr n ≠ [] := by
  rw [stripStr_of_noSpace (fun c hc => indep_not_space (hind c hc))]
  exact hne

theorem indepName_ne {q : Str} {nm : Str} (h : indepName q = some nm) : nm ≠ [] := by
  unfold indepName at h
  refine guardName_sound h (fun x hx => ?_)
    (fun x hx => strip_indep_ne (pat17_sound hx).2.1 (pat17_sound hx).2.2)
  refine guardName_sound hx (fun x2 hx2 => ?_)
    (fun x2 hx2 => strip_indep_ne (pat16_sound hx2).2.1 (pat16_sound hx2).2.2)
  refine guardName_sound hx2 (fun x3 hx3 => ?_)
    (fun x3 hx3 => strip_indep_ne (pat15_sound hx3).2.1 (pat15_sound hx3).2.2)
  refine guardName_sound hx3 (fun x4 hx4 => ?_)
    (fun x4 hx4 => strip_indep_ne (pat14_sound hx4).2.1 (pat14_sound hx4).2.2)
  refine guardName_sound hx4 (fun x5 hx5 => ?_)
    (fun x5 hx5 => strip_indep_ne (pat13_sound hx5).2.1 (pat13_sound hx5).2.2)
  refine guardName_sound hx5 (fun x6 hx6 => ?_)
    (fun x6 hx6 => strip_indep_ne (pat12_sound hx6).2.1 (pat12_sound hx6).2.2)
  refine guardName_sound hx6 (fun x7 hx7 => ?_)
    (fun x7 hx7 => strip_indep_ne (pat11_sound hx7).2.1 (pat11_sound hx7).2.2)
  refine guardName_sound hx7 (fun x8 hx8 => ?_)
    (fun x8 hx8 => strip_indep_ne (pat10_sound hx8).2.1 (pat10_sound hx8).2.2)
  cases h9 : reSearch pat9At q with
  | none => rw [h9] at hx8; exact absurd hx8 (by simp)
  | some n9 =>
    rw [h9] at hx8
    simp only [Option.map, Option.some.injEq] at hx8
    subst hx8
    exact strip_indep_ne (pat9_sound h9).2.1 (pat9_sound h9).2.2

theorem extract_code_sound {q c : String} (h : (extract_stock_info q).2 = some c) :
    IsCode c.data := by
  unfold extract_stock_info at h
  cases hm : matchFirst8 q.data with
  | some nc =>
    rw [hm] at h
    obtain ⟨n2, c2⟩ := nc
    simp only [Option.some.injEq] at h
    subst h
    exact matchFirst8_code hm
  | none =>
    rw [hm] at h
    dsimp only at h
    cases hic : indepCode q.data with
    | none => rw [hic] at h; exact absurd h (by simp)
    | some c3 =>
      rw [hic] at h
      simp only [Option.map, Option.some.injEq] at h
      subst h
      exact indepCode_sound hic

theorem extract_fallthrough_name {q n : String} (hm : matchFirst8 q.data = none)
    (h : (extract_stock_info q).1 = some n) : 2 ≤ n.length := by
  unfold extract_stock_info at h
  rw [hm] at h
  dsimp only at h
  cases hin : indepName q.data with
  | none => rw [hin] at h; exact absurd h (by simp)
  | some nm =>
    rw [hin] at h
    have hne : nm ≠ [] := indepName_ne hin
    dsimp only at h
    rw [if_neg (by simpa [List.isEmpty_iff] using hne)] at h
    unfold cleanupName at h
    by_cases hlt : (cleanName nm).length < 2
    · rw [if_pos hlt] at h
      exact absurd h (by simp)
    · rw [if_neg hlt] at h
      simp only [Option.map, Option.some.injEq] at h
      subst h
      show 2 ≤ (cleanName nm).length
      omega

/-! ## Claim theorems on invariants and control flow -/

/-- C7: for every input query, the returned stock_code, when present, is a
digit string of length exactly 5 or 6 (`\d` digits, i.e. `isDigitPy`). -/
theorem c7_stock_code_shape (q c : String) (h : (extract_stock_info q).2 = some c) :
    (c.length = 5 ∨ c.length = 6) ∧ ∀ ch ∈ c.data, isDigitPy ch = true := by
  obtain ⟨hd, hl⟩ := extract_code_sound h
  exact ⟨hl, hd⟩

theorem c7_stock_code_shape_witness :
    (extract_stock_info (r"00700")).2 = some (r"00700") ∧
    (((r"00700").length = 5 ∨ (r"00700").length = 6) ∧
      ∀ ch ∈ (r"00700").data, isDigitPy ch = true) :=
  ⟨by decide, c7_stock_code_shape (r"00700") (r"00700") (by decide)⟩

/-- C3 (amended): `extract_stock_info` is total — it is a Lean function
returning a pair, and a field with no matching rule is none.  The returned
stock_code is never the empty string, and in the fall-through path (no
combined pattern matched) a present company_name is never the empty string
either; however, a combined pattern can capture an all-whitespace name and
return the empty string as company_name (see the counterexample). -/
theorem c3_amended (q : String) :
    (∀ c, (extract_stock_info q).2 = some c → c ≠ "") ∧
    (matchFirst8 q.data = none → ∀ n, (extract_stock_info q).1 = some n → n ≠ "") := by
  constructor
  · intro c hc he
    obtain ⟨hd, hl⟩ := extract_code_sound hc
    subst he
    exact absurd hl (by decide)
  · intro hm n hn he
    have h2 := extract_fallthrough_name hm hn
    subst he
    exact absurd h2 (by decide)

theorem c3_amended_witness :
    (extract_stock_info (r"603871")).2 = some (r"603871") ∧ (r"603871") ≠ ("" : String) :=
  ⟨by decide, (c3_amended (r"603871")).1 (r"603871") (by decide)⟩

/-- C2 (amended): the stop-word cleanup and the length-below-2 discard are
applied only in the fall-through path.  Whenever no combined pattern
matched and `extract_stock_info` returns a non-None company_name, that
name has length at least 2.  (Combined patterns return their captured
name without any cleanup — see the counterexample — and even in the
fall-through path the sequential removal can itself create new stop-word
occurrences, so absence of stop-words in the result is not guaranteed.) -/
theorem c2_amended (q n : String) (hm : matchFirst8 q.data = none)
    (h : (extract_stock_info q).1 = some n) : 2 ≤ n.length :=
  extract_fallthrough_name hm h

theorem c2_amended_witness :
    matchFirst8 (r"分析一下宁德时代的财务状况").data = none ∧
    (extract_stock_info (r"分析一下宁德时代的财务状况")).1 = some (r"宁德时代") ∧
    2 ≤ (r"宁德时代").length :=
  ⟨by decide, by decide,
    c2_amended (r"分析一下宁德时代的财务状况") (r"宁德时代") (by decide) (by decide)⟩

/-- C4: whenever one of the eight combined patterns matches (they are tried
in the fixed order 1, 2, ..., 8 by `matchFirst8`, which returns the first
match's two captures), `extract_stock_info` returns exactly those two
captures, and the independent name-only and code-only rules (patterns
9-20) do not contribute to the result. -/
theorem c4_combined_first (q n c : String)
    (h : matchFirst8 q.data = some (n, c)) : extract_stock_info q = (some n, some c) := by
  unfold extract_stock_info
  rw [h]

theorem c4_combined_first_witness :
    matchFirst8 (r"分析嘉友国际(603871)").data = some ((r"嘉友国际"), (r"603871")) ∧
    extract_stock_info (r"分析嘉友国际(603871)") = (some (r"嘉友国际"), some (r"603871")) :=
  ⟨by decide,
    c4_combined_first (r"分析嘉友国际(603871)") (r"嘉友国际") (r"603871") (by decide)⟩

/-! ## C5: pure digit queries -/

theorem ascii_digitPy {c : Char} (h : isAsciiDigit c = true) : isDigitPy c = true := by
  simp [isDigitPy, h]

theorem openPar_cases {c : Char} (h : isOpenPar c = true) : c = '（' ∨ c = '(' := by
  simpa [isOpenPar] using h

theorem no_open_of_digits {q : Str} (hd : ∀ c ∈ q, isAsciiDigit c = true) :
    ¬ ∃ c ∈ q, isOpenPar c = true := by
  rintro ⟨c, hc, hop⟩
  rcases openPar_cases hop with rfl | rfl
  · exact absurd (hd _ hc) (by decide)
  · exact absurd (hd _ hc) (by decide)

theorem digit_char_absent {q : Str} (hd : ∀ c ∈ q, isAsciiDigit c = true) {x : Char}
    (hx : isAsciiDigit x = false) : x ∉ q := by
  intro hm
  have := hd x hm
  rw [hx] at this
  exact absurd this (by simp)

theorem takeWhile_eq_self_of_all {p : Char → Bool} :
    ∀ {l : Str}, (∀ c ∈ l, p c = true) → l.takeWhile p = l := by
  intro l
  induction l with
  | nil => intro; rfl
  | cons c cs ih =>
    intro h
    rw [List.takeWhile_cons, if_pos (h c (by simp))]
    rw [ih (fun x hx => h x (by simp [hx]))]

theorem attempt18_pure_digits {q : Str} (hd : ∀ c ∈ q, isDigitPy c = true)
    (hl : q.length = 5 ∨ q.length = 6) : attempt18 q = some q := by
  unfold attempt18
  rw [takeWhile_eq_self_of_all hd]
  have hdq : q.drop q.length = [] := by simp
  have htq : q.take q.length = q := by simp
  rcases hl with h5 | h6
  · rw [if_neg (by omega)]
    rw [if_pos h5]
    rw [show q.drop 5 = [] by rw [← h5]; exact hdq]
    rw [show q.take 5 = q by rw [← h5]; exact htq]
    rfl
  · rw [if_pos (by omega)]
    rw [show q.drop 6 = [] by rw [← h6]; exact hdq]
    rw [show q.take 6 = q by rw [← h6]; exact htq]
    rfl

theorem findCode18_pure_digits {q : Str} (hd : ∀ c ∈ q, isDigitPy c = true)
    (hl : q.length = 5 ∨ q.length = 6) : findCode18 false q = some q := by
  cases hq : q with
  | nil => rw [hq] at hl; simp at hl
  | cons c cs =>
    rw [← hq]
    have hc : isDigitPy c = true := hd c (by rw [hq]; simp)
    rw [hq]
    simp only [findCode18, Bool.not_false, Bool.true_and, hc, if_pos]
    rw [← hq, attempt18_pure_digits hd hl]

theorem guardName_none {prev : Option Str} : guardName prev none = prev := rfl

theorem guardCode_none {prev : Option Str} : guardCode prev none = prev := rfl

/-- C5: for every input string consisting solely of 5 or 6 decimal digits,
`extract_stock_info` returns (none, the input string itself). -/
theorem c5_pure_digits (s : String)
    (hd : ∀ c ∈ s.data, isAsciiDigit c = true)
    (hl : s.data.length = 5 ∨ s.data.length = 6) :
    extract_stock_info s = (none, some s) := by
  have hno : ¬ ∃ c ∈ s.data, isOpenPar c = true := no_open_of_digits hd
  have h1 : reSearch pat1At s.data = none := by
    cases hh : reSearch pat1At s.data with
    | none => rfl
    | some r => exact absurd (pat1_sound hh).1 hno
  have h2 : reSearch pat2At s.data = none := by
    cases hh : reSearch pat2At s.data with
    | none => rfl
    | some r => exact absurd (pat2_sound hh).1 hno
  have h3 : reSearch pat3At s.data = none := by
    cases hh : reSearch pat3At s.data with
    | none => rfl
    | some r => exact absurd (pat3_sound hh).1 hno
  have h4 : reSearch pat4At s.data = none := by
    cases hh : reSearch pat4At s.data with
    | none => rfl
    | some r => exact absurd (pat4_sound hh).1 hno
  have h5 : reSearch pat5At s.data = none := by
    cases hh : reSearch pat5At s.data with
    | none => rfl
    | some r => exact absurd (pat5_sound hh).1 hno
  have h6 : reSearch pat6At s.data = none := by
    cases hh : reSearch pat6At s.data with
    | none => rfl
    | some r => exact absurd (pat6_sound hh).1 hno
  have h7 : reSearch pat7At s.data = none := by
    cases hh : reSearch pat7At s.data with
    | none => rfl
    | some r => exact absurd (pat7_sound hh).1 hno
  have h8 : pat8 s.data = none := by
    cases hh : pat8 s.data with
    | none => rfl
    | some r => exact absurd (pat8_sound hh).1 hno
  have h9 : reSearch pat9At s.data = none := by
    cases hh : reSearch pat9At s.data with
    | none => rfl
    | some r => exact absurd (pat9_sound hh).1 (digit_char_absent hd (by decide))
  have h10 : reSearch pat10At s.data = none := by
    cases hh : reSearch pat10At s.data with
    | none => rfl
    | some r => exact absurd (pat10_sound hh).1 (digit_char_absent hd (by decide))
  have h11 : reSearch pat11At s.data = none := by
    cases hh : reSearch pat11At s.data with
    | none => rfl
    | some r => exact absurd (pat11_sound hh).1 (digit_char_absent hd (by decide))
  have h12 : reSearch pat12At s.data = none := by
    cases hh : reSearch pat12At s.data with
    | none => rfl
    | some r => exact absurd (pat12_sound hh).1 (digit_char_absent hd (by decide))
  have h13 : reSearch pat13At s.data = none := by
    cases hh : reSearch pat13At s.data with
    | none => rfl
    | some r => exact absurd (pat13_sound hh).1 (digit_char_absent hd (by decide))
  have h14 : reSearch pat14At s.data = none := by
    cases hh : reSearch pat14At s.data with
    | none => rfl
    | some r => exact absurd (pat14_sound hh).1 (digit_char_absent hd (by decide))
  have h15 : reSearch pat15At s.data = none := by
    cases hh : reSearch pat15At s.data with
    | none => rfl
    | some r => exact absurd (pat15_sound hh).1 (digit_char_absent hd (by decide))
  have h16 : reSearch pat16At s.data = none := by
    cases hh : reSearch pat16At s.data with
    | none => rfl
    | some r => exact absurd (pat16_sound hh).1 (digit_char_absent hd (by decide))
  have h17 : reSearch pat17At s.data = none := by
    cases hh : reSearch pat17At s.data with
    | none => rfl
    | some r => exact absurd (pat17_sound hh).1 (digit_char_absent hd (by decide))
  have h19 : reSearch pat19At s.data = none := by
    cases hh : reSearch pat19At s.data with
    | none => rfl
    | some r => exact absurd (pat19_sound hh).1 (digit_char_absent hd (by decide))
  have h20 : reSearch pat20At s.data = none := by
    cases hh : reSearch pat20At s.data with
    | none => rfl
    | some r => exact absurd (pat20_sound hh).1 (digit_char_absent hd (by decide))
  have h18 : findCode18 false s.data = some s.data :=
    findCode18_pure_digits (fun c hc => ascii_digitPy (hd c hc)) hl
  have hm8 : matchFirst8 s.data = none := by
    unfold matchFirst8
    rw [h1, h2, h3, h4, h5, h6, h7, h8]
  have hin : indepName s.data = none := by
    unfold indepName
    rw [h9, h10, h11, h12, h13, h14, h15, h16, h17]
    rfl
  have hic : indepCode s.data = some s.data := by
    unfold indepCode
    rw [h18, h19, h20]
    rfl
  unfold extract_stock_info
  rw [hm8, hin, hic]
  simp

theorem c5_pure_digits_witness :
    ((∀ c ∈ (r"12345").data, isAsciiDigit c = true) ∧
      ((r"12345").data.length = 5 ∨ (r"12345").data.length = 6)) ∧
    extract_stock_info (r"12345") = (none, some (r"12345")) :=
  ⟨⟨by decide, by decide⟩, c5_pure_digits (r"12345") (by decide) (by decide)⟩

/-! ## C6: the keyword directly followed by a bare digit run -/

theorem indep_not_ascii {c : Char} (h : isIndepChar c = true) : isAsciiDigit c = false := by
  cases hsp : isAsciiDigit c
  · rfl
  · simp [isIndepChar, hsp] at h

theorem char_absent_C6 {D : Str} (hd : ∀ c ∈ D, isAsciiDigit c = true) {x : Char}
    (hx1 : x ≠ '分') (hx2 : x ≠ '析') (hx3 : isAsciiDigit x = false) :
    x ∉ ('分' :: '析' :: D) := by
  intro hm
  rcases List.mem_cons.mp hm with h | hm2
  · exact hx1 h
  rcases List.mem_cons.mp hm2 with h | hm3
  · exact hx2 h
  · have := hd x hm3
    rw [hx3] at this
    exact absurd this (by simp)

theorem no_open_C6 {D : Str} (hd : ∀ c ∈ D, isAsciiDigit c = true) :
    ¬ ∃ c ∈ ('分' :: '析' :: D), isOpenPar c = true := by
  rintro ⟨c, hc, hop⟩
  rcases openPar_cases hop with rfl | rfl
  · exact char_absent_C6 hd (by decide) (by decide) (by decide) hc
  · exact char_absent_C6 hd (by decide) (by decide) (by decide) hc

theorem p10_none_C6 {D : Str} (hd : ∀ c ∈ D, isAsciiDigit c = true) :
    reSearch pat10At ('分' :: '析' :: D) = none := by
  cases hh : reSearch pat10At ('分' :: '析' :: D) with
  | none => rfl
  | some r =>
    exfalso
    obtain ⟨a, b, hq, hm⟩ := reSearch_sound hh
    unfold pat10At at hm
    obtain ⟨b1, hb, h1⟩ := matchLit_sound hm
    have hkw : kwFenxi = ['分', '析'] := by decide
    rw [hkw] at hb
    subst hb
    rcases a with _ | ⟨x, a2⟩
    · simp only [List.nil_append, List.cons_append, List.cons.injEq] at hq
      obtain ⟨-, -, hD⟩ := hq
      subst hD
      unfold pat10Tail at h1
      obtain ⟨a3, b3, hD2, _, h2⟩ := tryStar_sound h1
      obtain ⟨a4, b4, hb3, hne, hind, h3⟩ := tryGreedy_sound h2
      simp only [List.nil_append] at hne
      rcases a4 with _ | ⟨c4, a5⟩
      · exact hne rfl
      · have hc4D : c4 ∈ D := by
          rw [hD2, hb3]
          simp
        have := indep_not_ascii (hind c4 (by simp))
        have hdg := hd c4 hc4D
        rw [this] at hdg
        exact absurd hdg (by simp)
    · rcases a2 with _ | ⟨y, a3⟩
      · simp only [List.cons_append, List.nil_append, List.cons.injEq] at hq
        exact absurd hq.2.1 (by decide)
      · simp only [List.cons_append, List.cons.injEq] at hq
        have hmemD : '分' ∈ D := by
          rw [hq.2.2]
          simp
        exact absurd (hd _ hmemD) (by decide)

theorem word_C6 {D : Str} (hd : ∀ c ∈ D, isAsciiDigit c = true) :
    ∀ x ∈ ('分' :: '析' :: D), isWordChar x = true := by
  intro x hm
  rcases List.mem_cons.mp hm with rfl | hm2
  · decide
  rcases List.mem_cons.mp hm2 with rfl | hm3
  · decide
  · simp [isWordChar, ascii_digitPy (hd x hm3)]

theorem p18_none_C6 {D : Str} (hd : ∀ c ∈ D, isAsciiDigit c = true) :
    findCode18 false ('分' :: '析' :: D) = none := by
  cases hh : findCode18 false ('分' :: '析' :: D) with
  | none => rfl
  | some code =>
    exfalso
    obtain ⟨a, c, bs, hq, hdig, hcase⟩ := findCode18_position hh
    rcases hcase with ⟨ha, -⟩ | ⟨a2, w, ha, hw⟩
    · subst ha
      simp only [List.nil_append, List.cons.injEq] at hq
      obtain ⟨hc, -⟩ := hq
      subst hc
      exact absurd hdig (by decide)
    · have hwq : w ∈ ('分' :: '析' :: D) := by
        rw [hq, ha]
        simp
      have := word_C6 hd w hwq
      rw [hw] at this
      exact absurd this (by simp)

/-- C6: for every 6-digit string D, the query 分析 immediately followed by
D (no separator) yields (none, none): no combined pattern can match (there
is no parenthesis), pattern 10 cannot take a digit as a name character,
and the bare-code rule of pattern 18 requires a word boundary that does
not exist between a CJK character and a digit. -/
theorem c6_keyword_adjacent_digits (D : Str)
    (hd : ∀ c ∈ D, isAsciiDigit c = true) (_hlen : D.length = 6) :
    extract_stock_info (String.mk ('分' :: '析' :: D)) = (none, none) := by
  have hno : ¬ ∃ c ∈ ('分' :: '析' :: D), isOpenPar c = true := no_open_C6 hd
  have h1 : reSearch pat1At ('分' :: '析' :: D) = none := by
    cases hh : reSearch pat1At ('分' :: '析' :: D) with
    | none => rfl
    | some r => exact absurd (pat1_sound hh).1 hno
  have h2 : reSearch pat2At ('分' :: '析' :: D) = none := by
    cases hh : reSearch pat2At ('分' :: '析' :: D) with
    | none => rfl
    | some r => exact absurd (pat2_sound hh).1 hno
  have h3 : reSearch pat3At ('分' :: '析' :: D) = none := by
    cases hh : reSearch pat3At ('分' :: '析' :: D) with
    | none => rfl
    | some r => exact absurd (pat3_sound hh).1 hno
  have h4 : reSearch pat4At ('分' :: '析' :: D) = none := by
    cases hh : reSearch pat4At ('分' :: '析' :: D) with
    | none => rfl
    | some r => exact absurd (pat4_sound hh).1 hno
  have h5 : reSearch pat5At ('分' :: '析' :: D) = none := by
    cases hh : reSearch pat5At ('分' :: '析' :: D) with
    | none => rfl
    | some r => exact absurd (pat5_sound hh).1 hno
  have h6 : reSearch pat6At ('分' :: '析' :: D) = none := by
    cases hh : reSearch pat6At ('分' :: '析' :: D) with
    | none => rfl
    | some r => exact absurd (pat6_sound hh).1 hno
  have h7 : reSearch pat7At ('分' :: '析' :: D) = none := by
    cases hh : reSearch pat7At ('分' :: '析' :: D) with
    | none => rfl
    | some r => exact absurd (pat7_sound hh).1 hno
  have h8 : pat8 ('分' :: '析' :: D) = none := by
    cases hh : pat8 ('分' :: '析' :: D) with
    | none => rfl
    | some r => exact absurd (pat8_sound hh).1 hno
  have h9 : reSearch pat9At ('分' :: '析' :: D) = none := by
    cases hh : reSearch pat9At ('分' :: '析' :: D) with
    | none => rfl
    | some r =>
      exact absurd (pat9_sound hh).1 (char_absent_C6 hd (by decide) (by decide) (by decide))
  have h10 : reSearch pat10At ('分' :: '析' :: D) = none := p10_none_C6 hd
  have h11 : reSearch pat11At ('分' :: '析' :: D) = none := by
    cases hh : reSearch pat11At ('分' :: '析' :: D) with
    | none => rfl
    | some r =>
      exact absurd (pat11_sound hh).1 (char_absent_C6 hd (by decide) (by decide) (by decide))
  have h12 : reSearch pat12At ('分' :: '析' :: D) = none := by
    cases hh : reSearch pat12At ('分' :: '析' :: D) with
    | none => rfl
    | some r =>
      exact absurd (pat12_sound hh).1 (char_absent_C6 hd (by decide) (by decide) (by decide))
  have h13 : reSearch pat13At ('分' :: '析' :: D) = none := by
    cases hh : reSearch pat13At ('分' :: '析' :: D) with
    | none => rfl
    | some r =>
      exact absurd (pat13_sound hh).1 (char_absent_C6 hd (by decide) (by decide) (by decide))
  have h14 : reSearch pat14At ('分' :: '析' :: D) = none := by
    cases hh : reSearch pat14At ('分' :: '析' :: D) with
    | none => rfl
    | some r =>
      exact absurd (pat14_sound hh).1 (char_absent_C6 hd (by decide) (by decide) (by decide))
  have h15 : reSearch pat15At ('分' :: '析' :: D) = none := by
    cases hh : reSearch pat15At ('分' :: '析' :: D) with
    | none => rfl
    | some r =>
      exact absurd (pat15_sound hh).1 (char_absent_C6 hd (by decide) (by decide) (by decide))
  have h16 : reSearch pat16At ('分' :: '析' :: D) = none := by
    cases hh : reSearch pat16At ('分' :: '析' :: D) with
    | none => rfl
    | some r =>
      exact absurd (pat16_sound hh).1 (char_absent_C6 hd (by decide) (by decide) (by decide))
  have h17 : reSearch pat17At ('分' :: '析' :: D) = none := by
    cases hh : reSearch pat17At ('分' :: '析' :: D) with
    | none => rfl
    | some r =>
      exact absurd (pat17_sound hh).1 (char_absent_C6 hd (by decide) (by decide) (by decide))
  have h18 : findCode18 false ('分' :: '析' :: D) = none := p18_none_C6 hd
  have h19 : reSearch pat19At ('分' :: '析' :: D) = none := by
    cases hh : reSearch pat19At ('分' :: '析' :: D) with
    | none => rfl
    | some r =>
      exact absurd (pat19_sound hh).1 (char_absent_C6 hd (by decide) (by decide) (by decide))
  have h20 : reSearch pat20At ('分' :: '析' :: D) = none := by
    cases hh : reSearch pat20At ('分' :: '析' :: D) with
    | none => rfl
    | some r =>
      exact absurd (pat20_sound hh).1 (char_absent_C6 hd (by decide) (by decide) (by decide))
  have hm8 : matchFirst8 ('分' :: '析' :: D) = none := by
    unfold matchFirst8
    rw [h1, h2, h3, h4, h5, h6, h7, h8]
  have hin : indepName ('分' :: '析' :: D) = none := by
    unfold indepName
    rw [h9, h10, h11, h12, h13, h14, h15, h16, h17]
    rfl
  have hic : indepCode ('分' :: '析' :: D) = none := by
    unfold indepCode
    rw [h18, h19, h20]
    rfl
  have hdata : (String.mk ('分' :: '析' :: D)).data = '分' :: '析' :: D := rfl
  unfold extract_stock_info
  rw [hdata, hm8, hin, hic]
  rfl

theorem c6_keyword_adjacent_digits_witness :
    ((∀ c ∈ (r"123456").data, isAsciiDigit c = true) ∧ (r"123456").data.length = 6) ∧
    extract_stock_info (String.mk ('分' :: '析' :: (r"123456").data)) = (none, none) :=
  ⟨⟨by decide, by decide⟩,
    c6_keyword_adjacent_digits (r"123456").data (by decide) (by decide)⟩

/-! ## Stripping and replacement: structural facts -/

theorem dropWhile_head_false {p : Char → Bool} :
    ∀ {l : Str} {c : Char} {cs : Str}, l.dropWhile p = c :: cs → p c = false := by
  intro l
  induction l with
  | nil => intro c cs h; simp at h
  | cons x xs ih =>
    intro c cs h
    by_cases hp : p x = true
    · rw [List.dropWhile_cons, if_pos hp] at h
      exact ih h
    · rw [List.dropWhile_cons, if_neg hp] at h
      cases h
      simpa using hp

theorem takeWhile_mem_prop {p : Char → Bool} :
    ∀ {l : Str}, ∀ c ∈ l.takeWhile p, p c = true := by
  intro l
  induction l with
  | nil => intro c hc; simp at hc
  | cons x xs ih =>
    intro c hc
    by_cases hp : p x = true
    · rw [List.takeWhile_cons, if_pos hp] at hc
      rcases List.mem_cons.mp hc with rfl | hc2
      · exact hp
      · exact ih c hc2
    · rw [List.takeWhile_cons, if_neg hp] at hc
      simp at hc

theorem dropWhile_append_all {p : Char → Bool} :
    ∀ {w z : Str}, (∀ c ∈ w, p c = true) → (w ++ z).dropWhile p = z.dropWhile p := by
  intro w
  induction w with
  | nil => intro z _; rfl
  | cons x xs ih =>
    intro z h
    rw [List.cons_append, List.dropWhile_cons, if_pos (h x (by simp))]
    exact ih (fun c hc => h c (by simp [hc]))

theorem dropWhile_all {p : Char → Bool} :
    ∀ {l : Str}, (∀ c ∈ l, p c = true) → l.dropWhile p = [] := by
  intro l
  induction l with
  | nil => intro; rfl
  | cons x xs ih =>
    intro h
    rw [List.dropWhile_cons, if_pos (h x (by simp))]
    exact ih (fun c hc => h c (by simp [hc]))

/-- `stripStr` is the unique removal of an all-whitespace circumfix around
a part with non-whitespace first and last characters. -/
theorem stripStr_unique {w u v : Str}
    (hw : ∀ c ∈ w, isSpacePy c = true) (hv : ∀ c ∈ v, isSpacePy c = true)
    (hu1 : ∀ c cs, u = c :: cs → isSpacePy c = false)
    (hu2 : ∀ c cs, u.reverse = c :: cs → isSpacePy c = false) :
    stripStr (w ++ (u ++ v)) = u := by
  unfold stripStr
  rw [dropWhile_append_all hw]
  rcases u with _ | ⟨c, cs⟩
  · simp only [List.nil_append]
    rw [dropWhile_all hv]
    rfl
  · have hc : isSpacePy c = false := hu1 c cs rfl
    rw [List.cons_append, List.dropWhile_cons, if_neg (by simp [hc])]
    rw [show (c :: (cs ++ v)) = ((c :: cs) ++ v) from by simp]
    rw [List.reverse_append]
    rw [dropWhile_append_all (fun x hx => hv x (by simpa using hx))]
    rcases hur : (c :: cs).reverse with _ | ⟨c2, cs2⟩
    · exfalso
      have := congrArg List.length hur
      simp at this
    · have hc2 : isSpacePy c2 = false := hu2 c2 cs2 hur
      rw [List.dropWhile_cons, if_neg (by simp [hc2]), ← hur, List.reverse_reverse]

/-- Every string splits as whitespace, its strip, and whitespace, and the
strip has non-whitespace first and last characters. -/
theorem stripStr_decomp (x : Str) :
    ∃ w v, (∀ c ∈ w, isSpacePy c = true) ∧ (∀ c ∈ v, isSpacePy c = true) ∧
      x = w ++ (stripStr x ++ v) ∧
      (∀ c cs, stripStr x = c :: cs → isSpacePy c = false) ∧
      (∀ c cs, (stripStr x).reverse = c :: cs → isSpacePy c = false) := by
  refine ⟨x.takeWhile isSpacePy,
    ((x.dropWhile isSpacePy).reverse.takeWhile isSpacePy).reverse,
    fun c hc => takeWhile_mem_prop c hc,
    fun c hc => takeWhile_mem_prop c (by simpa using hc), ?_, ?_, ?_⟩
  · conv_lhs => rw [← List.takeWhile_append_dropWhile isSpacePy x]
    congr 1
    unfold stripStr
    conv_lhs => rw [← List.reverse_reverse (x.dropWhile isSpacePy)]
    conv_lhs =>
      rw [← List.takeWhile_append_dropWhile isSpacePy (x.dropWhile isSpacePy).reverse]
    rw [List.reverse_append]
  · intro c cs h
    unfold stripStr at h
    have : x.dropWhile isSpacePy =
        c :: (cs ++ ((x.dropWhile isSpacePy).reverse.takeWhile isSpacePy).reverse) := by
      conv_lhs => rw [← List.reverse_reverse (x.dropWhile isSpacePy)]
      conv_lhs =>
        rw [← List.takeWhile_append_dropWhile isSpacePy (x.dropWhile isSpacePy).reverse]
      rw [List.reverse_append, h, List.cons_append]
    exact dropWhile_head_false this
  · intro c cs h
    unfold stripStr at h
    rw [List.reverse_reverse] at h
    exact dropWhile_head_false h

theorem stripStr_idem (x : Str) : stripStr (stripStr x) = stripStr x := by
  obtain ⟨w, v, hw, hv, hx, hu1, hu2⟩ := stripStr_decomp x
  have : stripStr ([] ++ (stripStr x ++ [])) = stripStr x :=
    stripStr_unique (by simp) (by simp) hu1 hu2
  simpa using this

theorem stripStr_append_ws {w1 w2 z : Str}
    (h1 : ∀ c ∈ w1, isSpacePy c = true) (h2 : ∀ c ∈ w2, isSpacePy c = true) :
    stripStr (w1 ++ (z ++ w2)) = stripStr z := by
  obtain ⟨w, v, hw, hv, hz, hu1, hu2⟩ := stripStr_decomp z
  have hrw : w1 ++ (z ++ w2) = (w1 ++ w) ++ (stripStr z ++ (v ++ w2)) := by
    conv_lhs => rw [hz]
    simp
  rw [hrw]
  refine stripStr_unique ?_ ?_ hu1 hu2
  · intro c hc
    rcases List.mem_append.mp hc with hc | hc
    · exact h1 c hc
    · exact hw c hc
  · intro c hc
    rcases List.mem_append.mp hc with hc | hc
    · exact hv c hc
    · exact h2 c hc

theorem replaceAllGo_id {w : Str} :
    ∀ {s : Str} {fuel : Nat}, containsSub w s = false → replaceAllGo w fuel s = s := by
  intro s
  induction s with
  | nil => intro fuel _; cases fuel <;> rfl
  | cons c cs ih =>
    intro fuel h
    simp only [containsSub, Bool.or_eq_false_iff] at h
    cases fuel with
    | zero => rfl
    | succ f =>
      simp only [replaceAllGo]
      rw [if_neg (by simp [h.1])]
      rw [ih h.2]

theorem replaceAll_id {w s : Str} (h : containsSub w s = false) : replaceAll w s = s :=
  replaceAllGo_id h

theorem foldl_cleanStep_stripped :
    ∀ (l : List Str) (x : Str), (stripStr x = x ∨ l ≠ []) →
      stripStr (List.foldl cleanStep x l) = List.foldl cleanStep x l := by
  intro l
  induction l with
  | nil =>
    intro x h
    rcases h with h | h
    · exact h
    · exact absurd rfl h
  | cons a l ih =>
    intro x _
    rw [List.foldl_cons]
    exact ih (cleanStep x a) (Or.inl (stripStr_idem (replaceAll a x)))

theorem foldl_cleanStep_id :
    ∀ (l : List Str) (x : Str), (∀ w ∈ l, containsSub w x = false) →
      stripStr x = x → List.foldl cleanStep x l = x := by
  intro l
  induction l with
  | nil => intro x _ _; rfl
  | cons a l ih =>
    intro x h hs
    rw [List.foldl_cons]
    have hstep : cleanStep x a = x := by
      unfold cleanStep
      rw [replaceAll_id (h a (by simp)), hs]
    rw [hstep]
    exact ih x (fun w hw => h w (by simp [hw])) hs

/-- C9 (amended): the stop-word cleanup transformation is idempotent on
every string whose cleaned result contains no stop-word occurrence: if
cleanup of s yields some t and no stop-word occurs as a substring of t,
then cleanup of t yields t again.  (In general a removal can create a new
stop-word occurrence, breaking idempotence — see the counterexample.) -/
theorem c9_amended (s t : Str) (h : cleanupName s = some t)
    (hno : ∀ w ∈ stop_words, containsSub w t = false) : cleanupName t = some t := by
  unfold cleanupName at h
  by_cases hlt : (cleanName s).length < 2
  · rw [if_pos hlt] at h
    exact absurd h (by simp)
  · rw [if_neg hlt] at h
    simp only [Option.some.injEq] at h
    subst h
    have hstrip : stripStr (cleanName s) = cleanName s := by
      unfold cleanName
      exact foldl_cleanStep_stripped stop_words s (Or.inr (by simp [stop_words]))
    have hclean : cleanName (cleanName s) = cleanName s := by
      unfold cleanName
      exact foldl_cleanStep_id stop_words (cleanName s) hno hstrip
    unfold cleanupName
    rw [hclean, if_neg hlt]

theorem c9_amended_witness :
    cleanupName (r"宁德时代的").data = some ((r"宁德时代").data) ∧
    (∀ w ∈ stop_words, containsSub w (r"宁德时代").data = false) ∧
    cleanupName (r"宁德时代").data = some ((r"宁德时代").data) :=
  ⟨by decide, by decide,
    c9_amended (r"宁德时代的").data (r"宁德时代").data (by decide) (by decide)⟩

/-! ## C1: computation of pattern 3 on the 分析<NAME>(<CODE>) shape -/

theorem spacePy_cases {c : Char} (h : isSpacePy c = true) :
    c = ' ' ∨ c = '\t' ∨ c = '\n' ∨ c = '\r' ∨ c = '\u000B' ∨ c = '\u000C' ∨
      c = '\u00A0' ∨ c = '\u3000' := by
  simpa [isSpacePy, or_assoc] using h

theorem space_not_open {c : Char} (h : isSpacePy c = true) : isOpenPar c = false := by
  rcases spacePy_cases h with rfl | rfl | rfl | rfl | rfl | rfl | rfl | rfl <;> decide

theorem open_not_space {c : Char} (h : isOpenPar c = true) : isSpacePy c = false := by
  rcases openPar_cases h with rfl | rfl <;> decide

theorem closePar_cases {c : Char} (h : isClosePar c = true) : c = '）' ∨ c = ')' := by
  simpa [isClosePar] using h

theorem close_not_digit {c : Char} (h : isClosePar c = true) : isDigitPy c = false := by
  rcases closePar_cases h with rfl | rfl <;> decide

theorem stripStr_all_ws {l : Str} (h : ∀ c ∈ l, isSpacePy c = true) : stripStr l = [] := by
  unfold stripStr
  rw [dropWhile_all h]
  rfl

theorem tryStar_first {R : Type} {p : Char → Bool} {k : Str → Option R} {r : R} :
    ∀ {s : Str}, k (s.drop (s.takeWhile p).length) = some r → tryStar p s k = some r := by
  intro s
  induction s with
  | nil => intro h; simpa [tryStar] using h
  | cons c cs ih =>
    intro h
    by_cases hp : p c = true
    · rw [List.takeWhile_cons, if_pos hp, List.length_cons, List.drop_succ_cons] at h
      have := ih h
      simp [tryStar, hp, this, firstSome]
    · rw [List.takeWhile_cons, if_neg hp, List.length_nil, List.drop_zero] at h
      simp [tryStar, hp, h]

theorem tryStar_none {R : Type} {p : Char → Bool} {k : Str → Option R} :
    ∀ {s : Str}, (∀ n, n ≤ (s.takeWhile p).length → k (s.drop n) = none) →
      tryStar p s k = none := by
  intro s
  induction s with
  | nil =>
    intro h
    simpa [tryStar] using h 0 (by simp)
  | cons c cs ih =>
    intro h
    have h0 : k (c :: cs) = none := by simpa using h 0 (by simp)
    by_cases hp : p c = true
    · have hrest : tryStar p cs k = none := by
        apply ih
        intro n hn
        have hle : n + 1 ≤ ((c :: cs).takeWhile p).length := by
          rw [List.takeWhile_cons, if_pos hp, List.length_cons]
          omega
        simpa [List.drop_succ_cons] using h (n + 1) hle
      simp [tryStar, hp, hrest, firstSome, h0]
    · simp [tryStar, hp, h0]

theorem tryLazy_first {R : Type} {p : Char → Bool} {k : Str → Str → Option R} {r : R} :
    ∀ {u acc v : Str}, u ≠ [] → (∀ c ∈ u, p c = true) →
      (∀ u1 u2, u = u1 ++ u2 → u1 ≠ [] → u2 ≠ [] → k (acc ++ u1) (u2 ++ v) = none) →
      k (acc ++ u) v = some r → tryLazy p acc (u ++ v) k = some r := by
  intro u
  induction u with
  | nil => intro acc v hne _ _ _; exact absurd rfl hne
  | cons c us ih =>
    intro acc v _ hall hfail hk
    rw [List.cons_append]
    simp only [tryLazy]
    rw [if_pos (hall c (by simp))]
    cases us with
    | nil =>
      simp only [List.nil_append]
      have hk2 : k (acc ++ [c]) v = some r := hk
      rw [hk2]
      rfl
    | cons d us2 =>
      have hfirst : k (acc ++ [c]) ((d :: us2) ++ v) = none :=
        hfail [c] (d :: us2) rfl (by simp) (by simp)
      rw [hfirst]
      show tryLazy p (acc ++ [c]) ((d :: us2) ++ v) k = some r
      apply ih (by simp) (fun x hx => hall x (by simp [hx]))
      · intro u1 u2 hsplit hu1 hu2
        have := hfail (c :: u1) u2 (by rw [hsplit]; rfl) (by simp) hu2
        rw [show acc ++ (c :: u1) = (acc ++ [c]) ++ u1 by simp] at this
        exact this
      · have := hk
        rw [show acc ++ (c :: (d :: us2)) = (acc ++ [c]) ++ (d :: us2) by simp] at this
        exact this

theorem takeWhile_append_head {p : Char → Bool} :
    ∀ {a b : Str}, (∀ c ∈ a, p c = true) → (∀ c cs, b = c :: cs → p c = false) →
      (a ++ b).takeWhile p = a := by
  intro a
  induction a with
  | nil =>
    intro b _ hb
    cases b with
    | nil => rfl
    | cons c cs => simp [List.takeWhile_cons, hb c cs rfl]
  | cons x xs ih =>
    intro b ha hb
    rw [List.cons_append, List.takeWhile_cons, if_pos (ha x (by simp))]
    rw [ih (fun c hc => ha c (by simp [hc])) hb]

theorem takeWhile_append_lt {p : Char → Bool} :
    ∀ {a b : Str}, (∃ c ∈ a, p c = false) → ((a ++ b).takeWhile p).length < a.length := by
  intro a
  induction a with
  | nil =>
    rintro b ⟨c, hc, -⟩
    simp at hc
  | cons x xs ih =>
    intro b h
    by_cases hp : p x = true
    · rw [List.cons_append, List.takeWhile_cons, if_pos hp]
      have hxs : ∃ c ∈ xs, p c = false := by
        obtain ⟨c, hc, hcp⟩ := h
        rcases List.mem_cons.mp hc with rfl | hc2
        · rw [hp] at hcp; simp at hcp
        · exact ⟨c, hc2, hcp⟩
      have := @ih b hxs
      simp only [List.length_cons]
      omega
    · rw [List.cons_append, List.takeWhile_cons, if_neg hp]
      simp

theorem tailA3_closed {name t code : Str} {op cl : Char}
    (ht : ∀ c ∈ t, isSpacePy c = true) (hop : isOpenPar op = true)
    (hcode : ∀ c ∈ code, isDigitPy c = true)
    (hlen : code.length = 5 ∨ code.length = 6)
    (hcl : isClosePar cl = true) :
    tailA3 name (t ++ (op :: (code ++ [cl]))) = some (name, code) := by
  unfold tailA3
  apply tryStar_first
  rw [takeWhile_append_head ht (fun c cs h => by
    injection h with h1 h2
    rw [← h1]
    exact open_not_space hop)]
  rw [List.drop_left]
  show matchCls isOpenPar (op :: (code ++ [cl])) _ = some (name, code)
  simp only [matchCls]
  rw [if_pos hop]
  have htw : (code ++ [cl]).takeWhile isDigitPy = code :=
    takeWhile_append_head hcode (fun c cs h => by
      injection h with h1 h2
      rw [← h1]
      exact close_not_digit hcl)
  show tryDigits56 (code ++ [cl]) _ = some (name, code)
  unfold tryDigits56
  rw [htw]
  rcases hlen with h5 | h6
  · rw [if_neg (by omega), if_pos h5]
    rw [show (code ++ [cl]).take 5 = code by rw [← h5]; exact List.take_left code [cl]]
    rw [show (code ++ [cl]).drop 5 = [cl] by rw [← h5]; exact List.drop_left code [cl]]
    simp [hcl]
  · rw [if_pos (by omega)]
    rw [show (code ++ [cl]).take 6 = code by rw [← h6]; exact List.take_left code [cl]]
    rw [show (code ++ [cl]).drop 6 = [cl] by rw [← h6]; exact List.drop_left code [cl]]
    simp [hcl, firstSome]

theorem tailA3_none {nm z : Str}
    (hA : ∀ n c zs, n ≤ (z.takeWhile isSpacePy).length → z.drop n = c :: zs →
      isOpenPar c = false) :
    tailA3 nm z = none := by
  unfold tailA3
  apply tryStar_none
  intro n hn
  cases hz : z.drop n with
  | nil => rfl
  | cons c zs =>
    show matchCls isOpenPar (c :: zs) _ = none
    simp only [matchCls]
    rw [if_neg (by simp [hA n c zs hn hz])]

theorem tailA1_closed {u v code : Str} {op cl : Char}
    (hune : u ≠ [])
    (huopen : ∀ c ∈ u, isOpenPar c = false)
    (hulast : ∀ c cs, u.reverse = c :: cs → isSpacePy c = false)
    (hv : ∀ c ∈ v, isSpacePy c = true)
    (hop : isOpenPar op = true)
    (hcode : ∀ c ∈ code, isDigitPy c = true)
    (hlen : code.length = 5 ∨ code.length = 6)
    (hcl : isClosePar cl = true) :
    tailA1 (u ++ (v ++ (op :: (code ++ [cl])))) = some (u, code) := by
  unfold tailA1
  apply tryLazy_first hune (fun c hc => by simp [isNameChar, huopen c hc]) ?_ ?_
  · intro u1 u2 hsplit hu1 hu2
    show tailA3 ([] ++ u1) (u2 ++ (v ++ (op :: (code ++ [cl])))) = none
    rw [List.nil_append]
    apply tailA3_none
    intro n c zs hn hz
    have hlast : ∃ c2 ∈ u2, isSpacePy c2 = false := by
      cases hur : u2.reverse with
      | nil =>
        exfalso
        apply hu2
        simpa using congrArg List.reverse hur
      | cons c2 cs2 =>
        have hc2 : c2 ∈ u2 := by
          have hmem : c2 ∈ u2.reverse := by rw [hur]; simp
          simpa using hmem
        refine ⟨c2, hc2, ?_⟩
        apply hulast c2 (cs2 ++ u1.reverse)
        rw [hsplit, List.reverse_append, hur]
        rfl
    have hnlt : n < u2.length := by
      have := @takeWhile_append_lt isSpacePy u2 (v ++ (op :: (code ++ [cl]))) hlast
      omega
    have hdrop : (u2 ++ (v ++ (op :: (code ++ [cl])))).drop n
        = u2.drop n ++ (v ++ (op :: (code ++ [cl]))) :=
      List.drop_append_of_le_length (by omega)
    rw [hdrop] at hz
    cases hd : u2.drop n with
    | nil =>
      exfalso
      have := congrArg List.length hd
      simp only [List.length_drop, List.length_nil] at this
      omega
    | cons e es =>
      rw [hd, List.cons_append] at hz
      injection hz with h1 h2
      rw [← h1]
      apply huopen
      rw [hsplit]
      have : e ∈ u2 := List.drop_subset n u2 (by rw [hd]; simp)
      simp [this]
  · show tailA3 ([] ++ u) (v ++ (op :: (code ++ [cl]))) = some (u, code)
    rw [List.nil_append]
    exact tailA3_closed hv hop hcode hlen hcl

theorem tailA_closed {m code : Str} {op cl : Char}
    (hmopen : ∀ c ∈ m, isOpenPar c = false)
    (hmne : stripStr m ≠ [])
    (hop : isOpenPar op = true)
    (hcode : ∀ c ∈ code, isDigitPy c = true)
    (hlen : code.length = 5 ∨ code.length = 6)
    (hcl : isClosePar cl = true) :
    tailA (m ++ (op :: (code ++ [cl]))) = some (stripStr m, code) := by
  obtain ⟨w, v, hw, hv, hm, hu1, hu2⟩ := stripStr_decomp m
  have hseq : m ++ (op :: (code ++ [cl]))
      = w ++ ((stripStr m) ++ (v ++ (op :: (code ++ [cl])))) := by
    conv_lhs => rw [hm]
    simp
  rw [hseq]
  unfold tailA
  apply tryStar_first
  have hhead : ∀ c cs, (stripStr m) ++ (v ++ (op :: (code ++ [cl]))) = c :: cs →
      isSpacePy c = false := by
    intro c cs h
    cases hsm : stripStr m with
    | nil => exact absurd hsm hmne
    | cons e es =>
      rw [hsm, List.cons_append] at h
      injection h with h1 h2
      rw [← h1]
      exact hu1 e es hsm
  rw [takeWhile_append_head hw hhead, List.drop_left]
  apply tailA1_closed hmne ?_ hu2 hv hop hcode hlen hcl
  intro c hc
  apply hmopen
  rw [hm]
  simp [hc]

theorem tailA_allws {code : Str} {op cl : Char}
    (hop : isOpenPar op = true)
    (hcode : ∀ c ∈ code, isDigitPy c = true)
    (hlen : code.length = 5 ∨ code.length = 6)
    (hcl : isClosePar cl = true) :
    ∀ {m : Str}, (∀ c ∈ m, isSpacePy c = true) → m ≠ [] →
      ∃ c, isSpacePy c = true ∧
        tailA (m ++ (op :: (code ++ [cl]))) = some ([c], code) := by
  intro m
  induction m with
  | nil => intro _ hne; exact absurd rfl hne
  | cons c0 ms ih =>
    intro hws _
    by_cases hms : ms = []
    · subst hms
      refine ⟨c0, hws c0 (by simp), ?_⟩
      unfold tailA
      rw [List.cons_append, List.nil_append]
      simp only [tryStar]
      rw [if_pos (hws c0 (by simp))]
      rw [if_neg (by simp [open_not_space hop])]
      have hT1 : tailA1 (op :: (code ++ [cl])) = none := by
        unfold tailA1
        simp only [tryLazy]
        rw [if_neg (by simp [isNameChar, hop])]
      rw [hT1]
      simp only [firstSome]
      unfold tailA1
      simp only [tryLazy]
      rw [if_pos (by simp [isNameChar, space_not_open (hws c0 (by simp))])]
      have h3 : tailA3 ([] ++ [c0]) (op :: (code ++ [cl])) = some ([c0], code) := by
        rw [List.nil_append]
        have h4 := @tailA3_closed [c0] [] code op cl (fun c hc => absurd hc (by simp))
          hop hcode hlen hcl
        simpa using h4
      rw [h3]
      rfl
    · obtain ⟨c, hc, htail⟩ := ih (fun x hx => hws x (by simp [hx])) hms
      refine ⟨c, hc, ?_⟩
      rw [List.cons_append]
      show tryStar isSpacePy (c0 :: (ms ++ (op :: (code ++ [cl])))) tailA1 = some ([c], code)
      simp only [tryStar]
      rw [if_pos (hws c0 (by simp))]
      unfold tailA at htail
      rw [htail]
      rfl

theorem containsSub_of_decomp {w : Str} :
    ∀ {a b q : Str}, q = a ++ (w ++ b) → containsSub w q = true := by
  intro a
  induction a with
  | nil =>
    intro b q hq
    simp only [List.nil_append] at hq
    have hchop : chopLit w q = some b := by rw [hq]; exact chopLit_self
    cases q with
    | nil => simp [containsSub, hchop]
    | cons c cs => simp [containsSub, hchop]
  | cons x a2 ih =>
    intro b q hq
    rw [hq, List.cons_append]
    simp only [containsSub]
    rw [ih rfl]
    simp

theorem p2_none_of_no_sub {q : Str} (hno : containsSub kwFenxiYixia q = false) :
    reSearch pat2At q = none := by
  cases hh : reSearch pat2At q with
  | none => rfl
  | some r =>
    exfalso
    obtain ⟨a, b, hq, hm⟩ := reSearch_sound hh
    unfold pat2At at hm
    obtain ⟨b1, hb, -⟩ := matchLit_sound hm
    have hc : containsSub kwFenxiYixia q = true :=
      containsSub_of_decomp (by rw [hq, hb])
    rw [hc] at hno
    exact absurd hno (by simp)

theorem p1_none_of_no_sub {q : Str} (hno : containsSub kwFenxiYixia q = false) :
    reSearch pat1At q = none := by
  cases hh : reSearch pat1At q with
  | none => rfl
  | some r =>
    exfalso
    obtain ⟨a, b, hq, hm⟩ := reSearch_sound hh
    unfold pat1At at hm
    obtain ⟨b1, hb, -⟩ := matchLit_sound hm
    have hkw : kwP1 = ('请' :: '帮' :: '我' :: []) ++ kwFenxiYixia := by decide
    have hc : containsSub kwFenxiYixia q = true := by
      apply containsSub_of_decomp
      show q = (a ++ ('请' :: '帮' :: '我' :: [])) ++ (kwFenxiYixia ++ b1)
      rw [hq, hb, hkw]
      simp
    rw [hc] at hno
    exact absurd hno (by simp)

theorem pat3_search_closed {M code nm : Str} {op cl : Char}
    (htail : tailA (M ++ (op :: (code ++ [cl]))) = some (nm, code)) :
    reSearch pat3At (kwFenxi ++ (M ++ (op :: (code ++ [cl])))) = some (nm, code) := by
  have hAt : pat3At (kwFenxi ++ (M ++ (op :: (code ++ [cl])))) = some (nm, code) := by
    unfold pat3At matchLit
    rw [chopLit_self]
    exact htail
  have hcons : kwFenxi ++ (M ++ (op :: (code ++ [cl])))
      = '分' :: ('析' :: (M ++ (op :: (code ++ [cl])))) := by
    rw [show kwFenxi = ['分', '析'] from by decide]
    rfl
  rw [hcons]
  simp only [reSearch]
  rw [← hcons, hAt]
  rfl

/-- C1 (amended): for every input of the shape 分析<NAME>(<CODE>) — the
literal word 分析, then a nonempty NAME none of whose characters is a
half- or full-width opening parenthesis, then a 5-6 digit CODE enclosed
in half- or full-width parentheses, with optional whitespace between the
parts — provided the input does not contain the substring 分析一下
(otherwise pattern 2 fires first, see the counterexample),
`extract_stock_info` returns (NAME with surrounding whitespace trimmed,
CODE). -/
theorem c1_amended (name code w1 w2 : Str) (op cl : Char)
    (hname : name ≠ [])
    (hnp : ∀ c ∈ name, isOpenPar c = false)
    (hw1 : ∀ c ∈ w1, isSpacePy c = true) (hw2 : ∀ c ∈ w2, isSpacePy c = true)
    (hcode : ∀ c ∈ code, isAsciiDigit c = true)
    (hlen : code.length = 5 ∨ code.length = 6)
    (hop : isOpenPar op = true) (hcl : isClosePar cl = true)
    (hno : containsSub kwFenxiYixia
      (kwFenxi ++ (w1 ++ (name ++ (w2 ++ (op :: (code ++ [cl])))))) = false) :
    extract_stock_info (String.mk
      (kwFenxi ++ (w1 ++ (name ++ (w2 ++ (op :: (code ++ [cl])))))))
      = (some (String.mk (stripStr name)), some (String.mk code)) := by
  have hcodePy : ∀ c ∈ code, isDigitPy c = true := fun c hc => ascii_digitPy (hcode c hc)
  have hqm : w1 ++ (name ++ (w2 ++ (op :: (code ++ [cl]))))
      = (w1 ++ (name ++ w2)) ++ (op :: (code ++ [cl])) := by simp
  have hmne : w1 ++ (name ++ w2) ≠ [] := by
    intro h
    apply hname
    rcases List.append_eq_nil.mp h with ⟨-, h2⟩
    exact (List.append_eq_nil.mp h2).1
  have hmopen : ∀ c ∈ w1 ++ (name ++ w2), isOpenPar c = false := by
    intro c hc
    rcases List.mem_append.mp hc with hc | hc
    · exact space_not_open (hw1 c hc)
    rcases List.mem_append.mp hc with hc | hc
    · exact hnp c hc
    · exact space_not_open (hw2 c hc)
  have hp3 : ∃ nm, tailA ((w1 ++ (name ++ w2)) ++ (op :: (code ++ [cl]))) = some (nm, code)
      ∧ stripStr nm = stripStr name := by
    by_cases hstrip : stripStr (w1 ++ (name ++ w2)) = []
    · have hallws : ∀ c ∈ w1 ++ (name ++ w2), isSpacePy c = true := by
        obtain ⟨w, v, hw, hv, hm, -, -⟩ := stripStr_decomp (w1 ++ (name ++ w2))
        rw [hstrip] at hm
        intro c hc
        rw [hm] at hc
        simp only [List.nil_append] at hc
        rcases List.mem_append.mp hc with hc | hc
        · exact hw c hc
        · exact hv c hc
      obtain ⟨c, hcws, htail⟩ := tailA_allws hop hcodePy hlen hcl hallws hmne
      refine ⟨[c], htail, ?_⟩
      have hstrip1 : stripStr [c] = [] := by
        apply stripStr_all_ws
        intro x hx
        rcases List.mem_cons.mp hx with rfl | hx
        · exact hcws
        · simp at hx
      have hstrip2 : stripStr name = [] := by
        apply stripStr_all_ws
        intro x hx
        exact hallws x (by simp [hx])
      rw [hstrip1, hstrip2]
    · refine ⟨stripStr (w1 ++ (name ++ w2)),
        tailA_closed hmopen hstrip hop hcodePy hlen hcl, ?_⟩
      rw [stripStr_idem]
      exact stripStr_append_ws hw1 hw2
  obtain ⟨nm, htail, hnm⟩ := hp3
  have hsearch : reSearch pat3At
      (kwFenxi ++ (w1 ++ (name ++ (w2 ++ (op :: (code ++ [cl])))))) = some (nm, code) := by
    rw [hqm]
    exact pat3_search_closed htail
  have h1 := p1_none_of_no_sub hno
  have h2 := p2_none_of_no_sub hno
  have hm8 : matchFirst8 (kwFenxi ++ (w1 ++ (name ++ (w2 ++ (op :: (code ++ [cl]))))))
      = some (String.mk (stripStr nm), String.mk code) := by
    unfold matchFirst8
    rw [h1, h2, hsearch]
  unfold extract_stock_info
  rw [show (String.mk (kwFenxi ++ (w1 ++ (name ++ (w2 ++ (op :: (code ++ [cl]))))))).data
      = kwFenxi ++ (w1 ++ (name ++ (w2 ++ (op :: (code ++ [cl]))))) from rfl]
  rw [hm8]
  rw [hnm]

theorem c1_amended_witness :
    ((r"嘉友国际").data ≠ [] ∧
      (∀ c ∈ (r"嘉友国际").data, isOpenPar c = false) ∧
      (∀ c ∈ (r"603871").data, isAsciiDigit c = true) ∧
      ((r"603871").data.length = 5 ∨ (r"603871").data.length = 6) ∧
      isOpenPar '(' = true ∧ isClosePar ')' = true ∧
      containsSub kwFenxiYixia
        (kwFenxi ++ ([] ++ ((r"嘉友国际").data ++ ([] ++ ('(' :: ((r"603871").data ++ [')'])))))) = false) ∧
    extract_stock_info (String.mk
      (kwFenxi ++ ([] ++ ((r"嘉友国际").data ++ ([] ++ ('(' :: ((r"603871").data ++ [')'])))))))
      = (some (String.mk (stripStr (r"嘉友国际").data)), some (String.mk (r"603871").data)) :=
  ⟨⟨by decide, by decide, by decide, by decide, by decide, by decide, by decide⟩,
    c1_amended (r"嘉友国际").data (r"603871").data [] [] '(' ')'
      (by decide) (by decide) (by decide) (by decide) (by decide) (by decide)
      (by decide) (by decide) (by decide)⟩

end StockExtract
